import Mathlib

set_option autoImplicit false

deriving instance DecidableEq for Except

/-
  Verification development for the dlt load-package executor
  (src/dlt/load/load.py).  The loader core is embedded shallowly:
  pure helpers become Lean functions, the stateful executor threads an
  explicit state record, and the external collaborators (LoadStorage,
  the destination client) that live outside src/ are modelled from the
  specification as explicit state transitions and oracles.
-/

namespace DltLoad

/-- Runtime state of a load job as advertised by the destination client
(TLoadJobState in the source imports). -/
inductive TLoadJobState where
  | running
  | retry
  | failed
  | completed
deriving DecidableEq, Repr

/-- Durable job state: the folder a job file resides in
(TJobState in the source imports). -/
inductive TJobState where
  | new_jobs
  | started_jobs
  | failed_jobs
  | completed_jobs
deriving DecidableEq, Repr

/-- Modelled from the spec: the job filename grammar
table_name.file_id.retry_count.file_format; the filename is the identity
of a job file, so a file is represented directly by its parsed form
(ParsedLoadJobFileName in dlt.common.storages.load_storage, outside src/). -/
structure ParsedLoadJobFileName where
  table_name : String
  file_id : String
  retry_count : Nat
  file_format : String
deriving DecidableEq, Repr

/-- Retry-insensitive job identity: table_name.file_id (spec section 6). -/
def ParsedLoadJobFileName.job_id (p : ParsedLoadJobFileName) : String :=
  p.table_name ++ "." ++ p.file_id

/-- Runtime LoadJob handle.  The destination-side progress of the job is
an oracle given as a script of states returned by successive polls of
state(); exception() is the optional error text and followup is the
FollowupJob capability (isinstance check in create_followup_jobs). -/
structure LoadJob where
  file : ParsedLoadJobFileName
  script : List TLoadJobState
  exc : Option String
  followup : Bool
deriving DecidableEq, Repr

/-- state() of a job: the current head of its poll script (an exhausted
script stays completed). -/
def LoadJob.state (j : LoadJob) : TLoadJobState :=
  j.script.headD .completed

/-- The same job one poll later (the environment advances the remote job). -/
def LoadJob.advance (j : LoadJob) : LoadJob :=
  { j with script := j.script.tail }

/-- file_name() of a job. -/
def LoadJob.file_name (j : LoadJob) : ParsedLoadJobFileName :=
  j.file

/-- EmptyLoadJob.from_file_path (dlt.destinations.job_impl, outside src/):
a synthesized job in a fixed state carrying an exception text; it has no
followup capability. -/
def EmptyLoadJob_from_file_path (f : ParsedLoadJobFileName) (s : TLoadJobState)
    (msg : String) : LoadJob :=
  ⟨f, [s], some msg, false⟩

/-- Per-table schema entry: name, optional parent table and optional raw
write disposition (TTableSchema, treated as a typed record). -/
structure TTableSchema where
  name : String
  parent : Option String
  write_disposition : Option String
deriving DecidableEq, Repr

/-- The package schema: its tables and the names of the framework-internal
(dlt) tables. -/
structure Schema where
  tables : List TTableSchema
  dlt_table_names : List String
deriving DecidableEq, Repr

/-- Loader configuration (dlt.load.configuration): worker bound and the
raise_on_failed_jobs flag. -/
structure LoaderConfiguration where
  workers : Nat
  raise_on_failed_jobs : Bool
deriving DecidableEq, Repr

/-- Modelled from the spec: the durable LoadStorage state of one package
(dlt.common.storages.load_storage, outside src/): the four job folders,
failure messages persisted beside failed files, the staged schema-update
artifact and the archival state. -/
structure Storage where
  new_jobs : List ParsedLoadJobFileName
  started_jobs : List ParsedLoadJobFileName
  failed_jobs : List (ParsedLoadJobFileName × Option String)
  completed_jobs : List ParsedLoadJobFileName
  staged_update : Bool
  archived : Option Bool
deriving DecidableEq, Repr

/-- Observable destination-call events recorded by the embedding (ghost
trace used to state ordering and absence properties). -/
inductive Event where
  | retrieve
  | spool
  | complete_load (load_id : String)
deriving DecidableEq, Repr

/-- Prometheus metrics state: per-state gauges and counters, the wait
summary observation count and the completed-package counter. -/
structure Metrics where
  gauge_running : Nat := 0
  gauge_failed : Nat := 0
  gauge_completed : Nat := 0
  gauge_retrieved : Nat := 0
  cnt_running : Nat := 0
  cnt_failed : Nat := 0
  cnt_completed : Nat := 0
  cnt_retrieved : Nat := 0
  wait_obs : Nat := 0
  load_counter : Nat := 0
deriving DecidableEq, Repr

/-- The loader-visible mutable state: the package storage, the (shared,
mutable) schema object, the metrics registry and the ghost event trace. -/
structure LState where
  storage : Storage
  schema : Schema
  metrics : Metrics
  trace : List Event
deriving DecidableEq, Repr

/-- Errors surfaced by the loader core.  jobFailed is LoadClientJobFailed;
unknownTable is LoadJobUnknownTableException; unsupportedFormat and
unsupportedDisposition are the two LoadClient exceptions raised in
w_spool_job; assertionFailed models the assert in create_merge_job;
lookupError models an uncaught KeyError; destinationError models a
propagated destination exception; storageError a LoadStorage failure;
fuelExhausted marks a run cut off before the poll loop terminated. -/
inductive LoadError where
  | jobFailed (load_id : String) (job_id : String) (msg : Option String)
  | unknownTable (table : String) (file : ParsedLoadJobFileName)
  | unsupportedFormat (format : String) (file : ParsedLoadJobFileName)
  | unsupportedDisposition (table : String) (file : ParsedLoadJobFileName)
  | assertionFailed
  | lookupError (name : String)
  | destinationError (msg : String)
  | storageError (msg : String)
  | fuelExhausted
deriving DecidableEq, Repr

/-- Outcome of a destination call that either yields a job or raises a
terminal, transient or unexpected exception (error-kind taxonomy of
spec section 7). -/
inductive DestOutcome where
  | ok (j : LoadJob)
  | terminal (msg : String)
  | transient (msg : String)
  | unexpected (msg : String)
deriving Repr, DecidableEq

/-- The destination client as an oracle: its static capabilities and the
behaviour of start_file_load, restore_file_load and create_merge_job. -/
structure Env where
  supported_formats : List String
  start_file_load : TTableSchema → ParsedLoadJobFileName → DestOutcome
  restore_file_load : ParsedLoadJobFileName → DestOutcome
  create_merge_job : List TTableSchema → LoadJob

/-- Schema.get_table: plain lookup of a table by name.  Modelled from the
spec: the schema is a value object with typed lookups; in the Python
source the lookup returns the stored table record itself, so an in-place
update of the result is an update of the schema (see get_load_table). -/
def find_table (tables : List TTableSchema) (name : String) : Option TTableSchema :=
  tables.find? (fun t => t.name == name)

/-- Modelled from the spec: get_write_disposition
(dlt.common.schema.utils, outside src/) resolves the write disposition of
a table, falling back to inheritance from parent tables when the table
itself has none.  The fuel together with the shrinking allowed set makes
the Python recursion total; a missing table, an exhausted parent chain or
a parent cycle (where the Python code raises or diverges) yields none. -/
def get_write_disposition_aux (tables : List TTableSchema) :
    Nat → List String → String → Option String
  | 0, _, _ => none
  | fuel + 1, allowed, name =>
    if name ∈ allowed then
      match find_table tables name with
      | none => none
      | some t =>
        match t.write_disposition with
        | some d => some d
        | none =>
          match t.parent with
          | none => none
          | some p => get_write_disposition_aux tables fuel (allowed.erase name) p
    else none

/-- get_write_disposition over the full table set. -/
def get_write_disposition (tables : List TTableSchema) (name : String) : Option String :=
  get_write_disposition_aux tables (tables.map (fun t => t.name)).length
    (tables.map (fun t => t.name)) name

/-- Modelled from the spec: get_top_level_table
(dlt.common.schema.utils, outside src/) climbs parent links to the root
of the write chain.  Fuel and allowed set as in get_write_disposition_aux. -/
def get_top_level_table_aux (tables : List TTableSchema) :
    Nat → List String → String → Option TTableSchema
  | 0, _, _ => none
  | fuel + 1, allowed, name =>
    if name ∈ allowed then
      match find_table tables name with
      | none => none
      | some t =>
        match t.parent with
        | none => some t
        | some p => get_top_level_table_aux tables fuel (allowed.erase name) p
    else none

/-- get_top_level_table over the full table set. -/
def get_top_level_table (tables : List TTableSchema) (name : String) :
    Option TTableSchema :=
  get_top_level_table_aux tables (tables.map (fun t => t.name)).length
    (tables.map (fun t => t.name)) name

/-- Modelled from the spec: get_child_tables
(dlt.common.schema.utils, outside src/) returns the parent-first ordered
chain of a table and all its descendants (depth-first over the tables
whose parent field names the current table). -/
def get_child_tables_aux (tables : List TTableSchema) :
    Nat → List String → TTableSchema → List TTableSchema
  | 0, _, _ => []
  | fuel + 1, allowed, t =>
    if t.name ∈ allowed then
      t :: (tables.filter (fun c => c.parent == some t.name)).flatMap
        (fun c => get_child_tables_aux tables fuel (allowed.erase t.name) c)
    else []

/-- get_child_tables over the full table set. -/
def get_child_tables (tables : List TTableSchema) (table_name : String) :
    List TTableSchema :=
  match find_table tables table_name with
  | none => []
  | some t =>
    get_child_tables_aux tables (tables.map (fun u => u.name)).length
      (tables.map (fun u => u.name)) t

/-- In-place update of the table named tname inside the schema's table
set (the effect of mutating the record returned by Schema.get_table). -/
def replaceTable (tables : List TTableSchema) (tname : String)
    (t : TTableSchema) : List TTableSchema :=
  tables.map (fun u => if u.name == tname then t else u)

/-- get_load_table (load.py lines 73-83): parse the table name from the
file, look the table up, and if it carries no write disposition fill in
the resolved one — an in-place update of the shared schema table.  An
unknown table or an unresolvable disposition chain raises
LoadJobUnknownTableException. -/
def get_load_table (schema : Schema) (f : ParsedLoadJobFileName) :
    Schema × Except LoadError TTableSchema :=
  match find_table schema.tables f.table_name with
  | none => (schema, .error (.unknownTable f.table_name f))
  | some t =>
    match t.write_disposition with
    | some _ => (schema, .ok t)
    | none =>
      match get_write_disposition schema.tables f.table_name with
      | none => (schema, .error (.unknownTable f.table_name f))
      | some d =>
        let t2 := { t with write_disposition := some d }
        ({ schema with tables := replaceTable schema.tables f.table_name t2 },
          .ok t2)

/-- Modelled from the spec: start_job — atomic move new_jobs to
started_jobs, idempotent if already started. -/
def start_job (f : ParsedLoadJobFileName) (s : Storage) : Except LoadError Storage :=
  if f ∈ s.new_jobs then
    .ok { s with new_jobs := s.new_jobs.erase f,
                 started_jobs := s.started_jobs ++ [f] }
  else if f ∈ s.started_jobs then
    .ok s
  else
    .error (.storageError "start_job: file not found")

/-- Modelled from the spec: fail_job — atomic move started_jobs to
failed_jobs, persisting the failure message beside the file. -/
def fail_job (f : ParsedLoadJobFileName) (msg : Option String) (s : Storage) :
    Except LoadError Storage :=
  if f ∈ s.started_jobs then
    .ok { s with started_jobs := s.started_jobs.erase f,
                 failed_jobs := s.failed_jobs ++ [(f, msg)] }
  else
    .error (.storageError "fail_job: file not found")

/-- Modelled from the spec: retry_job — atomic move started_jobs back to
new_jobs with retry_count incremented in the target filename. -/
def retry_job (f : ParsedLoadJobFileName) (s : Storage) : Except LoadError Storage :=
  if f ∈ s.started_jobs then
    .ok { s with started_jobs := s.started_jobs.erase f,
                 new_jobs := s.new_jobs ++ [{ f with retry_count := f.retry_count + 1 }] }
  else
    .error (.storageError "retry_job: file not found")

/-- Modelled from the spec: complete_job — atomic move started_jobs to
completed_jobs, returning the final location. -/
def complete_job (f : ParsedLoadJobFileName) (s : Storage) : Except LoadError Storage :=
  if f ∈ s.started_jobs then
    .ok { s with started_jobs := s.started_jobs.erase f,
                 completed_jobs := s.completed_jobs ++ [f] }
  else
    .error (.storageError "complete_job: file not found")

/-- Modelled from the spec: add_new_job — insert a synthesized job file
directly into the chosen folder (new_jobs or started_jobs). -/
def add_new_job (f : ParsedLoadJobFileName) (folder : TJobState) (s : Storage) :
    Storage :=
  match folder with
  | .new_jobs => { s with new_jobs := s.new_jobs ++ [f] }
  | .started_jobs => { s with started_jobs := s.started_jobs ++ [f] }
  | .failed_jobs => { s with failed_jobs := s.failed_jobs ++ [(f, none)] }
  | .completed_jobs => { s with completed_jobs := s.completed_jobs ++ [f] }

/-- Modelled from the spec: complete_load_package — archive the package
directory; refuses when new_jobs or started_jobs is nonempty and
aborted is false. -/
def complete_load_package (aborted : Bool) (s : Storage) : Except LoadError Storage :=
  if !aborted && (!s.new_jobs.isEmpty || !s.started_jobs.isEmpty) then
    .error (.storageError "complete_load_package: package has pending jobs")
  else
    .ok { s with archived := some aborted }

/-- Modelled from the spec: list_jobs_for_table — every job file of the
given table across the four state folders, tagged with its folder. -/
def list_jobs_for_table (s : Storage) (table_name : String) :
    List (TJobState × ParsedLoadJobFileName) :=
  (s.new_jobs.filter (fun f => f.table_name == table_name)).map
      (fun f => (TJobState.new_jobs, f))
    ++ (s.started_jobs.filter (fun f => f.table_name == table_name)).map
      (fun f => (TJobState.started_jobs, f))
    ++ ((s.failed_jobs.map (fun pr => pr.1)).filter
        (fun f => f.table_name == table_name)).map
      (fun f => (TJobState.failed_jobs, f))
    ++ (s.completed_jobs.filter (fun f => f.table_name == table_name)).map
      (fun f => (TJobState.completed_jobs, f))

/-- The drain check of create_merge_job (load.py lines 166-177): walk the
table chain; a table without jobs is skipped; a table with a job that is
neither terminal nor the currently completing job (matched by
retry-insensitive job_id) aborts with none; otherwise the table joins
the chain. -/
def create_merge_job_go (storage : Storage) (starting_job : LoadJob) :
    List TTableSchema → List TTableSchema → Option (List TTableSchema)
  | [], chain => some chain
  | tb :: rest, chain =>
    let table_jobs := list_jobs_for_table storage tb.name
    if table_jobs.isEmpty then
      create_merge_job_go storage starting_job rest chain
    else if table_jobs.any (fun pr =>
        !(pr.1 == TJobState.failed_jobs || pr.1 == TJobState.completed_jobs)
          && !(pr.2.job_id == starting_job.file.job_id)) then
      none
    else
      create_merge_job_go storage starting_job rest (chain ++ [tb])

/-- create_merge_job (load.py lines 164-181): gather the drained table
chain under the top merged table; on a non-drained chain return no job;
assert the chain is nonempty; otherwise ask the destination client for
the merge job. -/
def create_merge_job (env : Env) (schema : Schema) (top_merged_table : TTableSchema)
    (starting_job : LoadJob) (storage : Storage) : Except LoadError (Option LoadJob) :=
  match create_merge_job_go storage starting_job
      (get_child_tables schema.tables top_merged_table.name) [] with
  | none => .ok none
  | some table_chain =>
    if table_chain.isEmpty then .error .assertionFailed
    else .ok (some (env.create_merge_job table_chain))

/-- create_followup_jobs (load.py lines 183-192): only for
followup-capable jobs completing successfully; resolve the job's table,
climb to the top-level table, and when its write disposition is merge
delegate to create_merge_job.  The schema is threaded because
get_load_table may update it in place. -/
def create_followup_jobs (env : Env) (state : TLoadJobState)
    (starting_job : LoadJob) (schema : Schema) (storage : Storage) :
    Schema × Except LoadError (List LoadJob) :=
  if starting_job.followup then
    if state == .completed then
      match get_load_table schema starting_job.file with
      | (schema2, .error e) => (schema2, .error e)
      | (schema2, .ok t) =>
        match get_top_level_table schema2.tables t.name with
        | none => (schema2, .error (.lookupError t.name))
        | some top_merged_table =>
          match top_merged_table.write_disposition with
          | none => (schema2, .error (.lookupError top_merged_table.name))
          | some d =>
            if d == "merge" then
              match create_merge_job env schema2 top_merged_table starting_job storage with
              | .error e => (schema2, .error e)
              | .ok none => (schema2, .ok [])
              | .ok (some job) => (schema2, .ok [job])
            else (schema2, .ok [])
    else (schema, .ok [])
  else (schema, .ok [])

/-- w_spool_job (load.py lines 85-108): check the file format, resolve
the table and its write disposition, then start the file load.  A
terminal failure (unsupported format, unknown table, unsupported
disposition or a terminal destination error) synthesizes an EmptyLoadJob
in failed state; a transient or any other unexpected error returns none
and leaves the file in new_jobs; in every other case the file is moved
new_jobs to started_jobs. -/
def w_spool_job (env : Env) (f : ParsedLoadJobFileName) (schema : Schema)
    (storage : Storage) : (Schema × Storage) × Except LoadError (Option LoadJob) :=
  if !(env.supported_formats.contains f.file_format) then
    let job := EmptyLoadJob_from_file_path f .failed
      ("LoadClientUnsupportedFileFormats: " ++ f.file_format)
    match start_job job.file_name storage with
    | .error e => ((schema, storage), .error e)
    | .ok storage2 => ((schema, storage2), .ok (some job))
  else
    match get_load_table schema f with
    | (schema2, .error _) =>
      let job := EmptyLoadJob_from_file_path f .failed
        ("LoadJobUnknownTableException: " ++ f.table_name)
      match start_job job.file_name storage with
      | .error e2 => ((schema2, storage), .error e2)
      | .ok storage2 => ((schema2, storage2), .ok (some job))
    | (schema2, .ok table) =>
      if !(["append", "replace", "merge"].contains
          (table.write_disposition.getD "")) then
        let job := EmptyLoadJob_from_file_path f .failed
          ("LoadClientUnsupportedWriteDisposition: " ++ f.table_name)
        match start_job job.file_name storage with
        | .error e2 => ((schema2, storage), .error e2)
        | .ok storage2 => ((schema2, storage2), .ok (some job))
      else
        match env.start_file_load table f with
        | .ok job =>
          match start_job job.file_name storage with
          | .error e2 => ((schema2, storage), .error e2)
          | .ok storage2 => ((schema2, storage2), .ok (some job))
        | .terminal msg =>
          let job := EmptyLoadJob_from_file_path f .failed msg
          match start_job job.file_name storage with
          | .error e2 => ((schema2, storage), .error e2)
          | .ok storage2 => ((schema2, storage2), .ok (some job))
        | .transient _ => ((schema2, storage), .ok none)
        | .unexpected _ => ((schema2, storage), .ok none)

/-- The worker fold of spool_new_jobs: the thread pool only parallelizes
independent file spools, so it is embedded as a sequential fold over the
selected files (spec section 5: the pool does not change package-level
semantics). -/
def spool_new_jobs_go (env : Env) :
    List ParsedLoadJobFileName → Schema → Storage → List (Option LoadJob) →
    (Schema × Storage) × Except LoadError (List (Option LoadJob))
  | [], schema, storage, acc => ((schema, storage), .ok acc)
  | f :: rest, schema, storage, acc =>
    match w_spool_job env f schema storage with
    | ((schema2, storage2), .error e) => ((schema2, storage2), .error e)
    | ((schema2, storage2), .ok oj) =>
      spool_new_jobs_go env rest schema2 storage2 (acc ++ [oj])

/-- spool_new_jobs (load.py lines 110-127): spool at most workers files
from new_jobs; return the total file count and the jobs that spooled
(none entries — transient failures — are dropped). -/
def spool_new_jobs (cfg : LoaderConfiguration) (env : Env) (st : LState) :
    LState × Except LoadError (Nat × List LoadJob) :=
  let st1 := { st with trace := st.trace ++ [Event.spool] }
  let load_files := st1.storage.new_jobs.take cfg.workers
  let file_count := load_files.length
  if file_count == 0 then (st1, .ok (0, []))
  else
    match spool_new_jobs_go env load_files st1.schema st1.storage [] with
    | ((schema2, storage2), .error e) =>
      ({ st1 with schema := schema2, storage := storage2 }, .error e)
    | ((schema2, storage2), .ok ojs) =>
      ({ st1 with schema := schema2, storage := storage2 },
        .ok (file_count, ojs.filterMap id))

/-- The per-file fold of retrieve_jobs: restore each started file; a
terminal restore failure synthesizes an EmptyLoadJob in failed state and
retrieval continues; a transient or any other failure propagates. -/
def retrieve_jobs_go (env : Env) :
    List ParsedLoadJobFileName → List LoadJob → Except LoadError (List LoadJob)
  | [], acc => .ok acc
  | f :: rest, acc =>
    match env.restore_file_load f with
    | .ok j => retrieve_jobs_go env rest (acc ++ [j])
    | .terminal msg =>
      retrieve_jobs_go env rest (acc ++ [EmptyLoadJob_from_file_path f .failed msg])
    | .transient msg => .error (.destinationError msg)
    | .unexpected msg => .error (.destinationError msg)

/-- retrieve_jobs (load.py lines 129-154): reattach to every file in
started_jobs; bump the retrieved metrics once when any job was found. -/
def retrieve_jobs (env : Env) (st : LState) :
    LState × Except LoadError (Nat × List LoadJob) :=
  let st1 := { st with trace := st.trace ++ [Event.retrieve] }
  if st1.storage.started_jobs.isEmpty then (st1, .ok (0, []))
  else
    match retrieve_jobs_go env st1.storage.started_jobs [] with
    | .error e => (st1, .error e)
    | .ok jobs =>
      ({ st1 with metrics :=
          { st1.metrics with
            gauge_retrieved := st1.metrics.gauge_retrieved + 1,
            cnt_retrieved := st1.metrics.cnt_retrieved + 1 } },
        .ok (jobs.length, jobs))

/-- The per-file fold of get_jobs_info: with no disposition filter every
new-jobs file is listed without touching the schema; with a filter the
file's table is resolved through get_load_table (threading the schema,
which get_load_table may update) and compared on the resolved write
disposition. -/
def get_jobs_info_go (disposition : Option String) :
    List ParsedLoadJobFileName → Schema → List ParsedLoadJobFileName →
    Schema × Except LoadError (List ParsedLoadJobFileName)
  | [], schema, acc => (schema, .ok acc)
  | f :: rest, schema, acc =>
    match disposition with
    | none => get_jobs_info_go none rest schema (acc ++ [f])
    | some d =>
      match get_load_table schema f with
      | (schema2, .error e) => (schema2, .error e)
      | (schema2, .ok t) =>
        if t.write_disposition == some d then
          get_jobs_info_go (some d) rest schema2 (acc ++ [f])
        else
          get_jobs_info_go (some d) rest schema2 acc

/-- get_jobs_info (load.py lines 156-162). -/
def get_jobs_info (disposition : Option String) (schema : Schema)
    (storage : Storage) : Schema × Except LoadError (List ParsedLoadJobFileName) :=
  get_jobs_info_go disposition storage.new_jobs schema []

/-- The metrics update on a terminal transition (load.py lines 237-240):
per-state gauge and counter increments plus one wait-summary observation. -/
def bump_terminal (m : Metrics) (s : TLoadJobState) : Metrics :=
  match s with
  | .failed =>
    { m with gauge_failed := m.gauge_failed + 1,
             cnt_failed := m.cnt_failed + 1,
             wait_obs := m.wait_obs + 1 }
  | .completed =>
    { m with gauge_completed := m.gauge_completed + 1,
             cnt_completed := m.cnt_completed + 1,
             wait_obs := m.wait_obs + 1 }
  | _ => m

/-- set_gauge_all_labels(job_gauge, 0) (load.py line 296). -/
def zero_gauges (m : Metrics) : Metrics :=
  { m with gauge_running := 0, gauge_failed := 0,
           gauge_completed := 0, gauge_retrieved := 0 }

/-- The running-jobs metrics bump after a fresh spool
(load.py lines 297-298). -/
def bump_running (m : Metrics) (n : Nat) : Metrics :=
  { m with gauge_running := m.gauge_running + n,
           cnt_running := m.cnt_running + n }

/-- The followup-placement loop of complete_jobs (load.py lines 223-228):
each followup job is saved through add_new_job, a running one into
new_jobs and any other into started_jobs. -/
def place_followups (followup_jobs : List LoadJob) (s : Storage) : Storage :=
  followup_jobs.foldl
    (fun s2 fj => add_new_job fj.file
      (if fj.state == .running then TJobState.new_jobs else TJobState.started_jobs) s2)
    s

/-- One iteration of the loop body of complete_jobs
(load.py lines 197-240) for a single polled job: returns the jobs this
job contributes to the remaining set of the current cycle.  A running
job stays (one poll later); a failed job is moved to failed_jobs and,
under raise_on_failed_jobs, raises LoadClientJobFailed before the
metrics update; a retried job moves back to new_jobs; a completed job
first places its followup jobs (running ones into new_jobs, others into
started_jobs and the remaining set) and is then moved to completed_jobs. -/
def complete_one_job (cfg : LoaderConfiguration) (env : Env) (load_id : String)
    (j : LoadJob) (st : LState) : LState × Except LoadError (List LoadJob) :=
  match j.state with
  | .running => (st, .ok [j.advance])
  | .failed =>
    match fail_job j.file_name j.exc st.storage with
    | .error e => (st, .error e)
    | .ok storage2 =>
      if cfg.raise_on_failed_jobs then
        ({ st with storage := storage2 },
          .error (.jobFailed load_id j.file.job_id j.exc))
      else
        ({ st with storage := storage2,
                   metrics := bump_terminal st.metrics .failed }, .ok [])
  | .retry =>
    match retry_job j.file_name st.storage with
    | .error e => (st, .error e)
    | .ok storage2 => ({ st with storage := storage2 }, .ok [])
  | .completed =>
    match create_followup_jobs env .completed j st.schema st.storage with
    | (schema2, .error e) => ({ st with schema := schema2 }, .error e)
    | (schema2, .ok followup_jobs) =>
      let storage1 := place_followups followup_jobs st.storage
      match complete_job j.file_name storage1 with
      | .error e => ({ st with schema := schema2, storage := storage1 }, .error e)
      | .ok storage2 =>
        ({ st with schema := schema2, storage := storage2,
                   metrics := bump_terminal st.metrics .completed },
          .ok (followup_jobs.filter (fun fj => !(fj.state == .running))))

/-- The loop of complete_jobs over the polled jobs, accumulating the
remaining set in order. -/
def complete_jobs_go (cfg : LoaderConfiguration) (env : Env) (load_id : String) :
    List LoadJob → LState → List LoadJob → LState × Except LoadError (List LoadJob)
  | [], st, acc => (st, .ok acc)
  | j :: rest, st, acc =>
    match complete_one_job cfg env load_id j st with
    | (st2, .error e) => (st2, .error e)
    | (st2, .ok extra) => complete_jobs_go cfg env load_id rest st2 (acc ++ extra)

/-- complete_jobs (load.py lines 194-243): poll every job once and return
the still-running subset (plus pre-terminal followup jobs queued for this
cycle). -/
def complete_jobs (cfg : LoaderConfiguration) (env : Env) (load_id : String)
    (jobs : List LoadJob) (st : LState) : LState × Except LoadError (List LoadJob) :=
  complete_jobs_go cfg env load_id jobs st []

/-- complete_package (load.py lines 245-257): for a non-aborted package
first call the destination's complete_load (recorded in the trace), then
archive the package directory and bump the package counter. -/
def complete_package (load_id : String) (aborted : Bool) (st : LState) :
    LState × Except LoadError Unit :=
  let st1 :=
    if aborted then st
    else { st with trace := st.trace ++ [Event.complete_load load_id] }
  match complete_load_package aborted st1.storage with
  | .error e => (st1, .error e)
  | .ok storage2 =>
    ({ st1 with storage := storage2,
                metrics := { st1.metrics with
                  load_counter := st1.metrics.load_counter + 1 } }, .ok ())

/-- The poll loop of load_single_package (load.py lines 306-319): call
complete_jobs until the remaining set is empty; a LoadClientJobFailed
completes the package with aborted true and re-raises; any other error
propagates directly; on a drained remaining set the loop just breaks.
The fuel bounds the number of poll cycles; fuelExhausted marks a run cut
off before the loop terminated. -/
def poll_loop (cfg : LoaderConfiguration) (env : Env) (load_id : String) :
    Nat → List LoadJob → LState → LState × Except LoadError Unit
  | 0, _, st => (st, .error .fuelExhausted)
  | fuel + 1, jobs, st =>
    match complete_jobs cfg env load_id jobs st with
    | (st2, .error (.jobFailed a b c)) =>
      match complete_package load_id true st2 with
      | (st3, .ok _) => (st3, .error (.jobFailed a b c))
      | (st3, .error e2) => (st3, .error e2)
    | (st2, .error e) => (st2, .error e)
    | (st2, .ok remaining_jobs) =>
      if remaining_jobs.isEmpty then (st2, .ok ())
      else poll_loop cfg env load_id fuel remaining_jobs st2

/-- The schema-sync prologue of load_single_package
(load.py lines 266-287): when a schema update is staged, list all jobs
and the merge jobs (both through get_jobs_info, which threads the schema)
and commit the update.  The destination-side storage and schema calls are
oracles without loader-visible state and are omitted. -/
def schema_sync (st : LState) : LState × Except LoadError Unit :=
  if st.storage.staged_update then
    match get_jobs_info none st.schema st.storage with
    | (schema1, .error e) => ({ st with schema := schema1 }, .error e)
    | (schema1, .ok _all_jobs) =>
      match get_jobs_info (some "merge") schema1 st.storage with
      | (schema2, .error e) => ({ st with schema := schema2 }, .error e)
      | (schema2, .ok _merge_jobs) =>
        ({ st with schema := schema2,
                   storage := { st.storage with staged_update := false } }, .ok ())
  else (st, .ok ())

/-- load_single_package (load.py lines 259-319): sync the schema, then
retrieve previously started jobs; only when none were retrieved spool
fresh ones; with zero total jobs complete the package, otherwise enter
the poll loop (which, on success, breaks without archiving). -/
def load_single_package (cfg : LoaderConfiguration) (env : Env) (fuel : Nat)
    (load_id : String) (st : LState) : LState × Except LoadError Unit :=
  match schema_sync st with
  | (st1, .error e) => (st1, .error e)
  | (st1, .ok _) =>
    match retrieve_jobs env st1 with
    | (st2, .error e) => (st2, .error e)
    | (st2, .ok (rcount, rjobs)) =>
      if rjobs.isEmpty then
        match spool_new_jobs cfg env st2 with
        | (st3, .error e) => (st3, .error e)
        | (st3, .ok (file_count, sjobs)) =>
          let st4 :=
            if 0 < file_count then
              { st3 with metrics := bump_running (zero_gauges st3.metrics) sjobs.length }
            else st3
          if file_count == 0 then complete_package load_id false st4
          else poll_loop cfg env load_id fuel sjobs st4
      else
        if rcount == 0 then complete_package load_id false st2
        else poll_loop cfg env load_id fuel rjobs st2

/-- A derivation that the table named at the head of the chain resolves
its write disposition to d: either the table carries it raw, or it is
inherited along parent links.  The chain records the visited table names. -/
inductive ChainWD (tables : List TTableSchema) : String → List String → String → Prop
  | raw (name : String) (t : TTableSchema) (d : String) :
      find_table tables name = some t → t.write_disposition = some d →
      ChainWD tables name [name] d
  | up (name : String) (t : TTableSchema) (p : String) (l : List String) (d : String) :
      find_table tables name = some t → t.write_disposition = none →
      t.parent = some p → ChainWD tables p l d →
      ChainWD tables name (name :: l) d

/-- The table named name has resolved write disposition d (the resolved
disposition of spec section 9, including inheritance from parent tables). -/
def ResolvesTo (tables : List TTableSchema) (name : String) (d : String) : Prop :=
  ∃ l, ChainWD tables name l d

/-- The drain condition of invariant I5 for a merge followup: every job
of every table in the chain under the top table is terminal, except for
the job currently being completed (matched by retry-insensitive job_id). -/
def merge_chain_ready (schema : Schema) (storage : Storage) (top : TTableSchema)
    (starting_job : LoadJob) : Prop :=
  ∀ tb ∈ get_child_tables schema.tables top.name,
    ∀ pr ∈ list_jobs_for_table storage tb.name,
      pr.1 = TJobState.failed_jobs ∨ pr.1 = TJobState.completed_jobs ∨
        pr.2.job_id = starting_job.file.job_id

instance (schema : Schema) (storage : Storage) (top : TTableSchema) (sj : LoadJob) :
    Decidable (merge_chain_ready schema storage top sj) :=
  inferInstanceAs (Decidable (∀ tb ∈ get_child_tables schema.tables top.name,
    ∀ pr ∈ list_jobs_for_table storage tb.name,
      pr.1 = TJobState.failed_jobs ∨ pr.1 = TJobState.completed_jobs ∨
        pr.2.job_id = sj.file.job_id))

/-- A restore outcome on which retrieve_jobs proceeds to the next file
(a job or a terminal failure, as opposed to a propagating one). -/
def DestOutcome.proceeds : DestOutcome → Bool
  | .ok _ => true
  | .terminal _ => true
  | .transient _ => false
  | .unexpected _ => false

/-- Example top-level merge table. -/
def tOrders : TTableSchema := ⟨"orders", none, some "merge"⟩

/-- Example child table inheriting its write disposition. -/
def tItems : TTableSchema := ⟨"orders__items", some "orders", none⟩

/-- Example package schema. -/
def exSchema : Schema := ⟨[tOrders, tItems], ["_dlt_loads"]⟩

/-- Example job file of the top-level table. -/
def fOrders : ParsedLoadJobFileName := ⟨"orders", "f1", 0, "jsonl"⟩

/-- Example job file of the child table. -/
def fItems : ParsedLoadJobFileName := ⟨"orders__items", "f2", 0, "jsonl"⟩

/-- Example followup-capable job over fOrders that completes at once. -/
def jOrders : LoadJob := ⟨fOrders, [.completed], none, true⟩

/-- Example failed job over fOrders. -/
def jFailed : LoadJob := ⟨fOrders, [.failed], some "bad row", false⟩

/-- Example merge job produced by the destination oracle. -/
def jMerge : LoadJob := ⟨⟨"merge_tbl", "m", 0, "sql"⟩, [.completed], none, false⟩

/-- Example destination environment: every load completes immediately and
the merge-job factory returns jMerge. -/
def exEnv : Env :=
  { supported_formats := ["jsonl"],
    start_file_load := fun _ f => .ok ⟨f, [.completed], none, false⟩,
    restore_file_load := fun f => .ok ⟨f, [.completed], none, false⟩,
    create_merge_job := fun _ => jMerge }

/-- Example environment whose restore raises a terminal error. -/
def exEnvTerm : Env :=
  { exEnv with restore_file_load := fun _ => .terminal "restore boom" }

/-- Example environment whose restore raises a transient error. -/
def exEnvTrans : Env :=
  { exEnv with restore_file_load := fun _ => .transient "network blip" }

/-- Example environment whose restore_file_load raises an unexpected
(non-destination) error. -/
def exEnvUnexp : Env :=
  { exEnv with restore_file_load := fun _ => .unexpected "attribute error" }

/-- Example environment whose start_file_load raises a transient error. -/
def exEnvStartTrans : Env :=
  { exEnv with start_file_load := fun _ _ => .transient "warehouse busy" }

/-- Example storage with one started job over fOrders. -/
def exStorage : Storage :=
  { new_jobs := [], started_jobs := [fOrders], failed_jobs := [],
    completed_jobs := [], staged_update := false, archived := none }

/-- Example storage with two started jobs over fOrders and fItems. -/
def exStorage2 : Storage :=
  { exStorage with started_jobs := [fOrders, fItems] }

/-- Example storage with one new job over fOrders. -/
def exStorageNew : Storage :=
  { exStorage with started_jobs := [], new_jobs := [fOrders] }

/-- Example storage with two new jobs over fItems and fOrders. -/
def exStorageNew2 : Storage :=
  { exStorage with started_jobs := [], new_jobs := [fItems, fOrders] }

/-- Example storage with all folders empty. -/
def exStorageEmpty : Storage :=
  { exStorage with started_jobs := [] }

/-- Example loader state over exStorage. -/
def exSt : LState := ⟨exStorage, exSchema, {}, []⟩

/-- Example loader state over the empty storage. -/
def exStEmpty : LState := ⟨exStorageEmpty, exSchema, {}, []⟩

/-- Example configuration that records failed jobs without raising. -/
def exCfg : LoaderConfiguration := ⟨20, false⟩

/-- Example configuration with raise_on_failed_jobs set. -/
def exCfgRaise : LoaderConfiguration := ⟨20, true⟩

/-- The child table after get_load_table cached its resolved disposition. -/
def tItemsFilled : TTableSchema := ⟨"orders__items", some "orders", some "merge"⟩

/-- exSchema after the in-place fill performed by get_load_table on fItems. -/
def exSchemaFilled : Schema := ⟨[tOrders, tItemsFilled], ["_dlt_loads"]⟩

/-- Example environment that does not support the jsonl format. -/
def exEnvNoJsonl : Env := { exEnv with supported_formats := ["parquet"] }

theorem find_table_eq_name {tables : List TTableSchema} {n : String} {t : TTableSchema}
    (h : find_table tables n = some t) : t.name = n := by
  have hp := List.find?_some h
  simpa using hp

theorem find_table_mem {tables : List TTableSchema} {n : String} {t : TTableSchema}
    (h : find_table tables n = some t) : t ∈ tables :=
  List.mem_of_find?_eq_some h

theorem chainWD_unique {tables : List TTableSchema} {n : String} {l1 : List String}
    {d1 : String} (h1 : ChainWD tables n l1 d1) :
    ∀ {l2 : List String} {d2 : String}, ChainWD tables n l2 d2 → d1 = d2 := by
  induction h1 with
  | raw name t d hf hw =>
    intro l2 d2 h2
    cases h2 with
    | raw name2 t2 d2x hf2 hw2 =>
      rw [hf] at hf2
      cases hf2
      rw [hw] at hw2
      exact Option.some.inj hw2
    | up name2 t2 p2 l2x d2x hf2 hw2 hp2 hrec2 =>
      rw [hf] at hf2
      cases hf2
      rw [hw] at hw2
      cases hw2
  | up name t p l d hf hw hp hrec ih =>
    intro l2 d2 h2
    cases h2 with
    | raw name2 t2 d2x hf2 hw2 =>
      rw [hf] at hf2
      cases hf2
      rw [hw] at hw2
      cases hw2
    | up name2 t2 p2 l2x d2x hf2 hw2 hp2 hrec2 =>
      rw [hf] at hf2
      cases hf2
      rw [hp] at hp2
      cases hp2
      exact ih hrec2

theorem resolvesTo_unique {tables : List TTableSchema} {n d1 d2 : String}
    (h1 : ResolvesTo tables n d1) (h2 : ResolvesTo tables n d2) : d1 = d2 := by
  obtain ⟨l1, hc1⟩ := h1
  obtain ⟨l2, hc2⟩ := h2
  exact chainWD_unique hc1 hc2

theorem gwd_aux_sound (tables : List TTableSchema) :
    ∀ (fuel : Nat) (allowed : List String) (n d : String),
      get_write_disposition_aux tables fuel allowed n = some d → ResolvesTo tables n d
  | 0, _, _, _, h => by simp [get_write_disposition_aux] at h
  | fuel + 1, allowed, n, d, h => by
    by_cases hm : n ∈ allowed
    · cases hf : find_table tables n with
      | none => simp [get_write_disposition_aux, hm, hf] at h
      | some t =>
        cases hw : t.write_disposition with
        | some e =>
          simp only [get_write_disposition_aux, if_pos hm, hf, hw] at h
          cases h
          exact ⟨[n], .raw n t d hf hw⟩
        | none =>
          cases hp : t.parent with
          | none => simp [get_write_disposition_aux, hm, hf, hw, hp] at h
          | some p =>
            simp only [get_write_disposition_aux, if_pos hm, hf, hw, hp] at h
            obtain ⟨l, hc⟩ := gwd_aux_sound tables fuel (allowed.erase n) p d h
            exact ⟨n :: l, .up n t p l d hf hw hp hc⟩
    · simp [get_write_disposition_aux, hm] at h

theorem gwd_sound {tables : List TTableSchema} {n d : String}
    (h : get_write_disposition tables n = some d) : ResolvesTo tables n d :=
  gwd_aux_sound tables _ _ n d h

theorem find_replace_self {tables : List TTableSchema} {tn : String} {t t2 : TTableSchema}
    (h : find_table tables tn = some t) (hname : t2.name = tn) :
    find_table (replaceTable tables tn t2) tn = some t2 := by
  induction tables with
  | nil => simp [find_table] at h
  | cons u rest ih =>
    by_cases hu : u.name = tn
    · have hhead : (if (u.name == tn) = true then t2 else u) = t2 := by simp [hu]
      have h1 : (t2.name == tn) = true := by simp [hname]
      show List.find? (fun v => v.name == tn)
        ((if (u.name == tn) = true then t2 else u) :: replaceTable rest tn t2) = some t2
      rw [hhead]
      exact @List.find?_cons_of_pos _ (fun v => v.name == tn) t2 (replaceTable rest tn t2) h1
    · have h0 : (u.name == tn) = false := by simp [hu]
      have hhead : (if (u.name == tn) = true then t2 else u) = u := by simp [h0]
      have h2 : find_table rest tn = some t := by
        have h3 := @List.find?_cons_of_neg _ (fun v => v.name == tn) u rest (by simp [h0])
        show List.find? (fun v => v.name == tn) rest = some t
        rw [← h3]
        exact h
      show List.find? (fun v => v.name == tn)
        ((if (u.name == tn) = true then t2 else u) :: replaceTable rest tn t2) = some t2
      rw [hhead]
      rw [@List.find?_cons_of_neg _ (fun v => v.name == tn) u (replaceTable rest tn t2) (by simp [h0])]
      exact ih h2

theorem find_replace_other {tables : List TTableSchema} {tn x : String} {t2 : TTableSchema}
    (hx : x ≠ tn) (hname : t2.name = tn) :
    find_table (replaceTable tables tn t2) x = find_table tables x := by
  induction tables with
  | nil => simp [find_table, replaceTable]
  | cons u rest ih =>
    show List.find? (fun v => v.name == x)
        ((if (u.name == tn) = true then t2 else u) :: replaceTable rest tn t2)
      = List.find? (fun v => v.name == x) (u :: rest)
    by_cases hu : u.name = tn
    · have hhead : (if (u.name == tn) = true then t2 else u) = t2 := by simp [hu]
      have hux : ¬(u.name == x) = true := by
        simp only [beq_iff_eq, hu]
        exact fun he => hx he.symm
      have ht2x : ¬(t2.name == x) = true := by
        simp only [beq_iff_eq, hname]
        exact fun he => hx he.symm
      rw [hhead]
      rw [@List.find?_cons_of_neg _ (fun v => v.name == x) t2 (replaceTable rest tn t2) ht2x]
      rw [@List.find?_cons_of_neg _ (fun v => v.name == x) u rest hux]
      exact ih
    · have h0 : (u.name == tn) = false := by simp [hu]
      have hhead : (if (u.name == tn) = true then t2 else u) = u := by simp [h0]
      rw [hhead]
      cases hux : u.name == x with
      | true =>
        rw [@List.find?_cons_of_pos _ (fun v => v.name == x) u (replaceTable rest tn t2) hux]
        rw [@List.find?_cons_of_pos _ (fun v => v.name == x) u rest hux]
      | false =>
        rw [@List.find?_cons_of_neg _ (fun v => v.name == x) u (replaceTable rest tn t2) (by simp [hux])]
        rw [@List.find?_cons_of_neg _ (fun v => v.name == x) u rest (by simp [hux])]
        exact ih

theorem chainWD_fill_to_orig {tables : List TTableSchema} {tn d : String} {t : TTableSchema}
    (hf : find_table tables tn = some t) (hres : ResolvesTo tables tn d) :
    ∀ {x : String} {l : List String} {e : String},
      ChainWD (replaceTable tables tn { t with write_disposition := some d }) x l e →
      ResolvesTo tables x e := by
  have hname : ({ t with write_disposition := some d } : TTableSchema).name = tn := by
    simpa using find_table_eq_name hf
  intro x l e hc
  induction hc with
  | raw name u ex hfind hwd =>
    by_cases hxn : name = tn
    · subst hxn
      rw [find_replace_self hf hname] at hfind
      cases hfind
      have hde : d = ex := by simpa using hwd
      exact hde ▸ hres
    · rw [find_replace_other hxn hname] at hfind
      exact ⟨[name], .raw name u ex hfind hwd⟩
  | up name u p l2 ex hfind hwd hp hrec ih =>
    by_cases hxn : name = tn
    · subst hxn
      rw [find_replace_self hf hname] at hfind
      cases hfind
      simp at hwd
    · rw [find_replace_other hxn hname] at hfind
      obtain ⟨l3, hc3⟩ := ih
      exact ⟨name :: l3, .up name u p l3 ex hfind hwd hp hc3⟩

theorem chainWD_orig_to_fill {tables : List TTableSchema} {tn d : String} {t : TTableSchema}
    (hf : find_table tables tn = some t) (hw : t.write_disposition = none)
    (hres : ResolvesTo tables tn d) :
    ∀ {x : String} {l : List String} {e : String},
      ChainWD tables x l e →
      ResolvesTo (replaceTable tables tn { t with write_disposition := some d }) x e := by
  have hname : ({ t with write_disposition := some d } : TTableSchema).name = tn := by
    simpa using find_table_eq_name hf
  intro x l e hc
  induction hc with
  | raw name u ex hfind hwd =>
    by_cases hxn : name = tn
    · rw [hxn] at hfind
      rw [hf] at hfind
      cases hfind
      rw [hw] at hwd
      cases hwd
    · refine ⟨[name], .raw name u ex ?_ hwd⟩
      rw [find_replace_other hxn hname]
      exact hfind
  | up name u p l2 ex hfind hwd hp hrec ih =>
    by_cases hxn : name = tn
    · rw [hxn] at hfind
      rw [hf] at hfind
      cases hfind
      have h1 : ResolvesTo tables tn ex := ⟨tn :: l2, .up tn t p l2 ex hf hwd hp hrec⟩
      have hde : d = ex := resolvesTo_unique hres h1
      rw [hxn]
      refine ⟨[tn], .raw tn _ ex (find_replace_self hf hname) ?_⟩
      simp [hde]
    · obtain ⟨l3, hc3⟩ := ih
      refine ⟨name :: l3, .up name u p l3 ex ?_ hwd hp hc3⟩
      rw [find_replace_other hxn hname]
      exact hfind

theorem fill_preserves_resolves {tables : List TTableSchema} {tn d : String}
    {t : TTableSchema} (hf : find_table tables tn = some t)
    (hw : t.write_disposition = none) (hres : ResolvesTo tables tn d) :
    ∀ (x e : String),
      ResolvesTo (replaceTable tables tn { t with write_disposition := some d }) x e
        ↔ ResolvesTo tables x e := by
  intro x e
  constructor
  · rintro ⟨l, hc⟩
    exact chainWD_fill_to_orig hf hres hc
  · rintro ⟨l, hc⟩
    exact chainWD_orig_to_fill hf hw hres hc

theorem replace_id {tables : List TTableSchema} {tn : String} {t2 : TTableSchema}
    (hall : ∀ v ∈ tables, v.name ≠ tn) : replaceTable tables tn t2 = tables := by
  induction tables with
  | nil => rfl
  | cons u rest ih =>
    have hu : ¬u.name = tn := hall u (List.mem_cons_self u rest)
    have hhead : (if (u.name == tn) = true then t2 else u) = u := by simp [hu]
    show (if (u.name == tn) = true then t2 else u) :: replaceTable rest tn t2 = u :: rest
    rw [hhead, ih (fun v hv => hall v (List.mem_cons_of_mem u hv))]

theorem replace_shape {tables : List TTableSchema} {tn : String} {t t2 : TTableSchema}
    (hf : find_table tables tn = some t) (hname : t2.name = t.name)
    (hpar : t2.parent = t.parent)
    (hnodup : (tables.map (fun v => v.name)).Nodup) :
    (replaceTable tables tn t2).map (fun v => (v.name, v.parent))
      = tables.map (fun v => (v.name, v.parent)) := by
  induction tables with
  | nil => rfl
  | cons u rest ih =>
    show ((if (u.name == tn) = true then t2 else u) :: replaceTable rest tn t2).map _
      = (u :: rest).map _
    by_cases hu : u.name = tn
    · have hhead : (if (u.name == tn) = true then t2 else u) = t2 := by simp [hu]
      have ht : t = u := by
        have h1 := @List.find?_cons_of_pos _ (fun v => v.name == tn) u rest (by simp [hu])
        have h2 : find_table (u :: rest) tn = some u := h1
        rw [hf] at h2
        exact Option.some.inj h2
      have hrest : ∀ v ∈ rest, v.name ≠ tn := by
        intro v hv he
        have hmem : u.name ∈ rest.map (fun w => w.name) := by
          rw [hu, ← he]
          exact List.mem_map_of_mem _ hv
        exact (List.nodup_cons.mp (by simpa using hnodup)).1 hmem
      rw [hhead, replace_id hrest]
      simp [hname, hpar, ht]
    · have hhead : (if (u.name == tn) = true then t2 else u) = u := by simp [hu]
      have h2 : find_table rest tn = some t := by
        have h3 := @List.find?_cons_of_neg _ (fun v => v.name == tn) u rest (by simp [hu])
        show List.find? (fun v => v.name == tn) rest = some t
        rw [← h3]
        exact hf
      rw [hhead]
      simp only [List.map_cons]
      rw [ih h2 (List.nodup_cons.mp (by simpa using hnodup)).2]

theorem glt_ok_name {schema : Schema} {f : ParsedLoadJobFileName} {schema2 : Schema}
    {t : TTableSchema} (h : get_load_table schema f = (schema2, .ok t)) :
    t.name = f.table_name := by
  cases hf : find_table schema.tables f.table_name with
  | none => simp [get_load_table, hf] at h
  | some u =>
    cases hw : u.write_disposition with
    | some w =>
      simp only [get_load_table, hf, hw] at h
      obtain ⟨h1, h2⟩ := Prod.mk.injEq .. ▸ h
      cases Except.ok.inj h2
      simpa using find_table_eq_name hf
    | none =>
      cases hgw : get_write_disposition schema.tables f.table_name with
      | none => simp [get_load_table, hf, hw, hgw] at h
      | some dd =>
        simp only [get_load_table, hf, hw, hgw] at h
        obtain ⟨h1, h2⟩ := Prod.mk.injEq .. ▸ h
        cases Except.ok.inj h2
        simpa using find_table_eq_name hf

theorem glt_ok_resolves {schema : Schema} {f : ParsedLoadJobFileName} {schema2 : Schema}
    {t : TTableSchema} (h : get_load_table schema f = (schema2, .ok t)) :
    ∃ v, t.write_disposition = some v ∧ ResolvesTo schema.tables f.table_name v := by
  cases hf : find_table schema.tables f.table_name with
  | none => simp [get_load_table, hf] at h
  | some u =>
    cases hw : u.write_disposition with
    | some w =>
      simp only [get_load_table, hf, hw] at h
      obtain ⟨h1, h2⟩ := Prod.mk.injEq .. ▸ h
      cases Except.ok.inj h2
      exact ⟨w, hw, ⟨[f.table_name], .raw f.table_name t w hf hw⟩⟩
    | none =>
      cases hgw : get_write_disposition schema.tables f.table_name with
      | none => simp [get_load_table, hf, hw, hgw] at h
      | some dd =>
        simp only [get_load_table, hf, hw, hgw] at h
        obtain ⟨h1, h2⟩ := Prod.mk.injEq .. ▸ h
        cases Except.ok.inj h2
        exact ⟨dd, rfl, gwd_sound hgw⟩

theorem glt_preserves_resolves {schema : Schema} {f : ParsedLoadJobFileName}
    {schema2 : Schema} {r : Except LoadError TTableSchema}
    (h : get_load_table schema f = (schema2, r)) :
    ∀ (x e : String), ResolvesTo schema2.tables x e ↔ ResolvesTo schema.tables x e := by
  cases hf : find_table schema.tables f.table_name with
  | none =>
    simp only [get_load_table, hf] at h
    obtain ⟨h1, h2⟩ := Prod.mk.injEq .. ▸ h
    rw [← h1]
    exact fun x e => Iff.rfl
  | some u =>
    cases hw : u.write_disposition with
    | some w =>
      simp only [get_load_table, hf, hw] at h
      obtain ⟨h1, h2⟩ := Prod.mk.injEq .. ▸ h
      rw [← h1]
      exact fun x e => Iff.rfl
    | none =>
      cases hgw : get_write_disposition schema.tables f.table_name with
      | none =>
        simp only [get_load_table, hf, hw, hgw] at h
        obtain ⟨h1, h2⟩ := Prod.mk.injEq .. ▸ h
        rw [← h1]
        exact fun x e => Iff.rfl
      | some dd =>
        simp only [get_load_table, hf, hw, hgw] at h
        obtain ⟨h1, h2⟩ := Prod.mk.injEq .. ▸ h
        rw [← h1]
        exact fill_preserves_resolves hf hw (gwd_sound hgw)

theorem glt_find_self {schema : Schema} {f : ParsedLoadJobFileName} {schema2 : Schema}
    {t : TTableSchema} (h : get_load_table schema f = (schema2, .ok t)) :
    find_table schema2.tables t.name = some t := by
  cases hf : find_table schema.tables f.table_name with
  | none => simp [get_load_table, hf] at h
  | some u =>
    cases hw : u.write_disposition with
    | some w =>
      simp only [get_load_table, hf, hw] at h
      obtain ⟨h1, h2⟩ := Prod.mk.injEq .. ▸ h
      cases Except.ok.inj h2
      rw [← h1]
      rw [find_table_eq_name hf]
      exact hf
    | none =>
      cases hgw : get_write_disposition schema.tables f.table_name with
      | none => simp [get_load_table, hf, hw, hgw] at h
      | some dd =>
        simp only [get_load_table, hf, hw, hgw] at h
        obtain ⟨h1, h2⟩ := Prod.mk.injEq .. ▸ h
        cases Except.ok.inj h2
        rw [← h1]
        have hname : ({ u with write_disposition := some dd } : TTableSchema).name
            = f.table_name := by simpa using find_table_eq_name hf
        rw [hname]
        exact find_replace_self hf rfl

/-- C7 (corrected): get_load_table never changes the names, the parents,
the dlt-table list or the resolved write dispositions of the schema, and
leaves the schema entirely unchanged whenever every table already
carries a raw write disposition; the only mutation it may perform is the
in-place fill of the looked-up table's resolved write disposition. -/
theorem C7_get_load_table_frame (schema : Schema) (f : ParsedLoadJobFileName)
    (schema2 : Schema) (r : Except LoadError TTableSchema)
    (h : get_load_table schema f = (schema2, r))
    (hnodup : (schema.tables.map (fun v => v.name)).Nodup) :
    schema2.tables.map (fun v => (v.name, v.parent))
        = schema.tables.map (fun v => (v.name, v.parent))
    ∧ (∀ x e, ResolvesTo schema2.tables x e ↔ ResolvesTo schema.tables x e)
    ∧ schema2.dlt_table_names = schema.dlt_table_names
    ∧ ((∀ u ∈ schema.tables, u.write_disposition.isSome) → schema2 = schema) := by
  have hpres := glt_preserves_resolves h
  cases hf : find_table schema.tables f.table_name with
  | none =>
    simp only [get_load_table, hf] at h
    obtain ⟨h1, h2⟩ := Prod.mk.injEq .. ▸ h
    rw [← h1] at hpres ⊢
    exact ⟨rfl, hpres, rfl, fun _ => rfl⟩
  | some u =>
    cases hw : u.write_disposition with
    | some w =>
      simp only [get_load_table, hf, hw] at h
      obtain ⟨h1, h2⟩ := Prod.mk.injEq .. ▸ h
      rw [← h1] at hpres ⊢
      exact ⟨rfl, hpres, rfl, fun _ => rfl⟩
    | none =>
      cases hgw : get_write_disposition schema.tables f.table_name with
      | none =>
        simp only [get_load_table, hf, hw, hgw] at h
        obtain ⟨h1, h2⟩ := Prod.mk.injEq .. ▸ h
        rw [← h1] at hpres ⊢
        exact ⟨rfl, hpres, rfl, fun _ => rfl⟩
      | some dd =>
        simp only [get_load_table, hf, hw, hgw] at h
        obtain ⟨h1, h2⟩ := Prod.mk.injEq .. ▸ h
        rw [← h1] at hpres ⊢
        refine ⟨replace_shape hf rfl rfl hnodup, hpres, rfl, ?_⟩
        intro hall
        have := hall u (find_table_mem hf)
        rw [hw] at this
        simp at this

/-- C7: counterexample to the claim as stated — resolving the child table
orders__items writes the inherited write disposition merge back into the
shared schema, so the schema's tables change. -/
theorem C7_counterexample :
    (get_load_table exSchema fItems).2 = .ok tItemsFilled
    ∧ (get_load_table exSchema fItems).1 = exSchemaFilled
    ∧ (get_load_table exSchema fItems).1.tables ≠ exSchema.tables := by
  refine ⟨by decide, by decide, by decide⟩

/-- C7: witness instantiating the frame theorem on the fill-in example. -/
theorem C7_witness :
    (exSchemaFilled.tables.map (fun v => (v.name, v.parent))
        = exSchema.tables.map (fun v => (v.name, v.parent)))
    ∧ ((∀ u ∈ exSchema.tables, u.write_disposition.isSome) → exSchemaFilled = exSchema) := by
  have hmain := C7_get_load_table_frame exSchema fItems exSchemaFilled (.ok tItemsFilled)
    (by decide) (by decide)
  exact ⟨hmain.1, hmain.2.2.2⟩

/-- The membership characterization of the get_jobs_info fold under a
disposition filter: a file lands in the output exactly when it is among
the pending files (or already accumulated) and its table resolves to the
filtered disposition — resolution taken against the schema before the
fold, which is legitimate because each in-place fill preserves resolved
dispositions. -/
theorem gji_go_mem (d : String) (schema0 : Schema) :
    ∀ (files : List ParsedLoadJobFileName) (schema : Schema)
      (acc : List ParsedLoadJobFileName) (schema2 : Schema)
      (l : List ParsedLoadJobFileName),
      get_jobs_info_go (some d) files schema acc = (schema2, .ok l) →
      (∀ x e, ResolvesTo schema.tables x e ↔ ResolvesTo schema0.tables x e) →
      ∀ p, p ∈ l ↔ (p ∈ acc ∨ (p ∈ files ∧ ResolvesTo schema0.tables p.table_name d))
  | [], schema, acc, schema2, l, h, hinv, p => by
    simp only [get_jobs_info_go] at h
    obtain ⟨h1, h2⟩ := Prod.mk.injEq .. ▸ h
    cases Except.ok.inj h2
    simp
  | f :: rest, schema, acc, schema2, l, h, hinv, p => by
    cases hglt : get_load_table schema f with
    | mk schema1 r =>
      cases r with
      | error e =>
        simp only [get_jobs_info_go, hglt] at h
        obtain ⟨h1, h2⟩ := Prod.mk.injEq .. ▸ h
        cases h2
      | ok t =>
        have hpres := glt_preserves_resolves hglt
        have hinv1 : ∀ x e, ResolvesTo schema1.tables x e ↔ ResolvesTo schema0.tables x e :=
          fun x e => (hpres x e).trans (hinv x e)
        obtain ⟨v, hv, hresv⟩ := glt_ok_resolves hglt
        have hres0 : ResolvesTo schema0.tables f.table_name v :=
          (hinv f.table_name v).mp hresv
        cases hvd : t.write_disposition == some d with
        | true =>
          simp only [get_jobs_info_go, hglt, hvd, if_true] at h
          have ih := gji_go_mem d schema0 rest schema1 (acc ++ [f]) schema2 l h hinv1 p
          have hveq : v = d := by
            have hsome : t.write_disposition = some d := by
              exact (beq_iff_eq ..).mp hvd
            rw [hv] at hsome
            exact Option.some.inj hsome
          have hRf : ResolvesTo schema0.tables f.table_name d := hveq ▸ hres0
          rw [ih]
          constructor
          · rintro (hmem | hrest)
            · rcases List.mem_append.mp hmem with hacc | hone
              · exact Or.inl hacc
              · have hpf : p = f := by simpa using hone
                subst hpf
                exact Or.inr ⟨List.mem_cons_self p rest, hRf⟩
            · exact Or.inr ⟨List.mem_cons_of_mem f hrest.1, hrest.2⟩
          · rintro (hacc | ⟨hm, hR⟩)
            · exact Or.inl (List.mem_append.mpr (Or.inl hacc))
            · rcases List.mem_cons.mp hm with heq | hm2
              · subst heq
                exact Or.inl (List.mem_append.mpr (Or.inr (by simp)))
              · exact Or.inr ⟨hm2, hR⟩
        | false =>
          simp only [get_jobs_info_go, hglt, hvd, if_false] at h
          have ih := gji_go_mem d schema0 rest schema1 acc schema2 l h hinv1 p
          have hvne : v ≠ d := by
            intro hveq
            rw [hveq] at hv
            rw [hv] at hvd
            simp at hvd
          have hnRf : ¬ResolvesTo schema0.tables f.table_name d := by
            intro hRd
            exact hvne (resolvesTo_unique hres0 hRd)
          rw [ih]
          constructor
          · rintro (hacc | hrest)
            · exact Or.inl hacc
            · exact Or.inr ⟨List.mem_cons_of_mem f hrest.1, hrest.2⟩
          · rintro (hacc | ⟨hm, hR⟩)
            · exact Or.inl hacc
            · rcases List.mem_cons.mp hm with heq | hm2
              · subst heq
                exact absurd hR hnRf
              · exact Or.inr ⟨hm2, hR⟩

/-- C9 (confirmed): get_jobs_info with a disposition filter includes a
new-jobs file exactly when its table's resolved write disposition —
inherited from parent tables when the table has none — equals the given
disposition. -/
theorem C9_jobs_info_resolved (d : String) (schema : Schema) (storage : Storage)
    (schema2 : Schema) (l : List ParsedLoadJobFileName)
    (h : get_jobs_info (some d) schema storage = (schema2, .ok l)) :
    ∀ p, p ∈ l ↔ (p ∈ storage.new_jobs ∧ ResolvesTo schema.tables p.table_name d) := by
  intro p
  have hmem := gji_go_mem d schema storage.new_jobs schema [] schema2 l h
    (fun x e => Iff.rfl) p
  rw [hmem]
  simp

/-- C9: witness — the child file fItems is included under the merge
filter precisely because its resolved (inherited) disposition is merge. -/
theorem C9_witness :
    fItems ∈ [fItems, fOrders]
    ∧ (fItems ∈ [fItems, fOrders]
        ↔ (fItems ∈ exStorageNew2.new_jobs
            ∧ ResolvesTo exSchema.tables fItems.table_name "merge")) := by
  refine ⟨by decide, ?_⟩
  exact C9_jobs_info_resolved "merge" exSchema exStorageNew2 exSchemaFilled
    [fItems, fOrders] (by decide) fItems

theorem cmj_go_acc_length (storage : Storage) (sj : LoadJob) :
    ∀ (list chain ch : List TTableSchema),
      create_merge_job_go storage sj list chain = some ch → chain.length ≤ ch.length
  | [], chain, ch, h => by
    simp only [create_merge_job_go] at h
    cases h
    exact Nat.le_refl _
  | tb :: rest, chain, ch, h => by
    simp only [create_merge_job_go] at h
    cases he : (list_jobs_for_table storage tb.name).isEmpty with
    | true =>
      simp only [he, eq_self_iff_true, if_true] at h
      exact cmj_go_acc_length storage sj rest chain ch h
    | false =>
      simp only [he, Bool.false_eq_true, if_false] at h
      cases ha : (list_jobs_for_table storage tb.name).any (fun pr =>
          !(pr.1 == TJobState.failed_jobs || pr.1 == TJobState.completed_jobs)
            && !(pr.2.job_id == sj.file.job_id)) with
      | true => simp only [ha, eq_self_iff_true, if_true] at h; cases h
      | false =>
        simp only [ha, Bool.false_eq_true, if_false] at h
        have hrec := cmj_go_acc_length storage sj rest (chain ++ [tb]) ch h
        have hlen : chain.length ≤ (chain ++ [tb]).length := by simp
        exact Nat.le_trans hlen hrec

theorem cmj_go_mem_nonempty (storage : Storage) (sj : LoadJob) :
    ∀ (list : List TTableSchema) (t : TTableSchema) (chain ch : List TTableSchema),
      t ∈ list → list_jobs_for_table storage t.name ≠ [] →
      create_merge_job_go storage sj list chain = some ch → ch ≠ []
  | [], t, chain, ch, hmem, _, _ => by cases hmem
  | tb :: rest, t, chain, ch, hmem, hne, h => by
    simp only [create_merge_job_go] at h
    cases he : (list_jobs_for_table storage tb.name).isEmpty with
    | true =>
      simp only [he, eq_self_iff_true, if_true] at h
      rcases List.mem_cons.mp hmem with heq | hmem2
      · subst heq
        exact absurd (List.isEmpty_iff.mp he) hne
      · exact cmj_go_mem_nonempty storage sj rest t chain ch hmem2 hne h
    | false =>
      simp only [he, Bool.false_eq_true, if_false] at h
      cases ha : (list_jobs_for_table storage tb.name).any (fun pr =>
          !(pr.1 == TJobState.failed_jobs || pr.1 == TJobState.completed_jobs)
            && !(pr.2.job_id == sj.file.job_id)) with
      | true => simp only [ha, eq_self_iff_true, if_true] at h; cases h
      | false =>
        simp only [ha, Bool.false_eq_true, if_false] at h
        have hlen := cmj_go_acc_length storage sj rest (chain ++ [tb]) ch h
        intro hnil
        rw [hnil] at hlen
        simp at hlen

theorem cmj_go_some_gate (storage : Storage) (sj : LoadJob) :
    ∀ (list chain ch : List TTableSchema),
      create_merge_job_go storage sj list chain = some ch →
      ∀ tb ∈ list, ∀ pr ∈ list_jobs_for_table storage tb.name,
        pr.1 = TJobState.failed_jobs ∨ pr.1 = TJobState.completed_jobs ∨
          pr.2.job_id = sj.file.job_id
  | [], chain, ch, _, tb, hmem, _, _ => by cases hmem
  | tb0 :: rest, chain, ch, h, tb, hmem, pr, hpr => by
    simp only [create_merge_job_go] at h
    cases he : (list_jobs_for_table storage tb0.name).isEmpty with
    | true =>
      simp only [he, eq_self_iff_true, if_true] at h
      rcases List.mem_cons.mp hmem with heq | hmem2
      · subst heq
        rw [List.isEmpty_iff.mp he] at hpr
        cases hpr
      · exact cmj_go_some_gate storage sj rest chain ch h tb hmem2 pr hpr
    | false =>
      simp only [he, Bool.false_eq_true, if_false] at h
      cases ha : (list_jobs_for_table storage tb0.name).any (fun pr =>
          !(pr.1 == TJobState.failed_jobs || pr.1 == TJobState.completed_jobs)
            && !(pr.2.job_id == sj.file.job_id)) with
      | true => simp only [ha, eq_self_iff_true, if_true] at h; cases h
      | false =>
        simp only [ha, Bool.false_eq_true, if_false] at h
        rcases List.mem_cons.mp hmem with heq | hmem2
        · subst heq
          have hall := List.any_eq_false.mp ha pr hpr
          by_cases h1 : pr.1 = TJobState.failed_jobs
          · exact Or.inl h1
          by_cases h2 : pr.1 = TJobState.completed_jobs
          · exact Or.inr (Or.inl h2)
          · refine Or.inr (Or.inr ?_)
            by_contra hc
            apply hall
            have hb1 : (pr.1 == TJobState.failed_jobs) = false := by simp [h1]
            have hb2 : (pr.1 == TJobState.completed_jobs) = false := by simp [h2]
            have hb3 : (pr.2.job_id == sj.file.job_id) = false := by simp [hc]
            simp [hb1, hb2, hb3]
        · exact cmj_go_some_gate storage sj rest (chain ++ [tb0]) ch h tb hmem2 pr hpr

/-- C2 (confirmed): for a completing followup-capable job whose top-level
table has write disposition merge, a merge followup is returned only if
every job of every table in the chain under the top table is terminal or
is the completing job itself (matched by retry-insensitive job_id);
when that drain condition fails, no followup is produced. -/
theorem C2_merge_followup_gate (env : Env) (schema : Schema) (storage : Storage)
    (starting_job : LoadJob) (schema2 : Schema) (t top : TTableSchema)
    (hfu : starting_job.followup = true)
    (hglt : get_load_table schema starting_job.file = (schema2, .ok t))
    (htop : get_top_level_table schema2.tables t.name = some top)
    (hwd : top.write_disposition = some "merge") :
    (∀ fjs, create_followup_jobs env .completed starting_job schema storage
        = (schema2, .ok fjs) → fjs ≠ [] →
        merge_chain_ready schema2 storage top starting_job)
    ∧ (¬merge_chain_ready schema2 storage top starting_job →
        create_followup_jobs env .completed starting_job schema storage
          = (schema2, .ok [])) := by
  have hstep : create_followup_jobs env .completed starting_job schema storage
      = match create_merge_job env schema2 top starting_job storage with
        | .error e => (schema2, .error e)
        | .ok none => (schema2, .ok [])
        | .ok (some job) => (schema2, .ok [job]) := by
    simp only [create_followup_jobs, hfu, if_true, hglt, htop, hwd]
    simp
  constructor
  · intro fjs hres hne
    rw [hstep] at hres
    cases hcm : create_merge_job env schema2 top starting_job storage with
    | error e =>
      rw [hcm] at hres
      obtain ⟨h1, h2⟩ := Prod.mk.injEq .. ▸ hres
      cases h2
    | ok o =>
      cases o with
      | none =>
        rw [hcm] at hres
        obtain ⟨h1, h2⟩ := Prod.mk.injEq .. ▸ hres
        cases Except.ok.inj h2
        cases hne rfl
      | some job =>
        cases hgo : create_merge_job_go storage starting_job
            (get_child_tables schema2.tables top.name) [] with
        | none => rw [create_merge_job, hgo] at hcm; cases hcm
        | some chain =>
          intro tb htb pr hpr
          exact cmj_go_some_gate storage starting_job _ [] chain hgo tb htb pr hpr
  · intro hng
    rw [hstep]
    have hnone : create_merge_job_go storage starting_job
        (get_child_tables schema2.tables top.name) [] = none := by
      cases hgo : create_merge_job_go storage starting_job
          (get_child_tables schema2.tables top.name) [] with
      | none => rfl
      | some chain =>
        exact absurd (fun tb htb pr hpr =>
          cmj_go_some_gate storage starting_job _ [] chain hgo tb htb pr hpr) hng
    rw [create_merge_job, hnone]

/-- C2: witness — with the child job of orders__items still pending, the
drain condition fails and the completing orders job emits no followup. -/
theorem C2_witness :
    create_followup_jobs exEnv .completed jOrders exSchema exStorage2
      = (exSchema, .ok []) := by
  have h := C2_merge_followup_gate exEnv exSchema exStorage2 jOrders exSchema
    tOrders tOrders (by decide) (by decide) (by decide) (by decide)
  exact h.2 (by decide)

theorem gct_aux_child_mem (tables : List TTableSchema) :
    ∀ (fuel : Nat) (allowed : List String) (x : String) (top u c : TTableSchema),
      allowed.Nodup →
      u ∈ get_child_tables_aux tables fuel (allowed.erase x) top →
      x ∈ allowed → c ∈ tables → c.parent = some u.name → c.name = x →
      c ∈ get_child_tables_aux tables (fuel + 1) allowed top
  | 0, allowed, x, top, u, c, hnd, hu, hx, hc, hpar, hname => by
    simp [get_child_tables_aux] at hu
  | fuel + 1, allowed, x, top, u, c, hnd, hu, hx, hc, hpar, hname => by
    by_cases hgate : top.name ∈ allowed.erase x
    case neg => simp [get_child_tables_aux, hgate] at hu
    case pos =>
      obtain ⟨htopx, htopA⟩ := (List.Nodup.mem_erase_iff hnd).mp hgate
      simp only [get_child_tables_aux, if_pos hgate] at hu
      rcases List.mem_cons.mp hu with hutop | huflat
      · subst hutop
        show c ∈ get_child_tables_aux tables (fuel + 1 + 1) allowed u
        simp only [get_child_tables_aux, if_pos htopA]
        apply List.mem_cons_of_mem
        apply List.mem_flatMap.mpr
        refine ⟨c, List.mem_filter.mpr ⟨hc, by simp [hpar]⟩, ?_⟩
        have hcx : c.name ∈ allowed.erase u.name := by
          rw [hname]
          exact (List.mem_erase_of_ne (fun he => htopx he.symm)).mpr hx
        simp only [get_child_tables_aux, if_pos hcx]
        exact List.mem_cons_self _ _
      · obtain ⟨ch, hch, hu2⟩ := List.mem_flatMap.mp huflat
        rw [List.erase_comm] at hu2
        have hxA2 : x ∈ allowed.erase top.name :=
          (List.mem_erase_of_ne (fun he => htopx he.symm)).mpr hx
        have hres := gct_aux_child_mem tables fuel (allowed.erase top.name) x ch u c
          (List.Nodup.erase _ hnd) hu2 hxA2 hc hpar hname
        show c ∈ get_child_tables_aux tables (fuel + 1 + 1) allowed top
        simp only [get_child_tables_aux, if_pos htopA]
        apply List.mem_cons_of_mem
        exact List.mem_flatMap.mpr ⟨ch, hch, hres⟩

theorem gtlt_top_find (tables : List TTableSchema) :
    ∀ (fuel : Nat) (allowed : List String) (n : String) (top : TTableSchema),
      get_top_level_table_aux tables fuel allowed n = some top →
      find_table tables top.name = some top
  | 0, _, _, _, h => by simp [get_top_level_table_aux] at h
  | fuel + 1, allowed, n, top, h => by
    by_cases hm : n ∈ allowed
    · cases hf : find_table tables n with
      | none => simp [get_top_level_table_aux, hm, hf] at h
      | some t =>
        cases hp : t.parent with
        | none =>
          simp only [get_top_level_table_aux, if_pos hm, hf, hp] at h
          cases h
          rw [find_table_eq_name hf]
          exact hf
        | some p =>
          simp only [get_top_level_table_aux, if_pos hm, hf, hp] at h
          exact gtlt_top_find tables fuel (allowed.erase n) p top h
    · simp [get_top_level_table_aux, hm] at h

theorem gtlt_mem_children (tables : List TTableSchema) :
    ∀ (fuel : Nat) (allowed : List String) (x : String) (t top : TTableSchema),
      allowed.Nodup →
      get_top_level_table_aux tables fuel allowed x = some top →
      find_table tables x = some t →
      t ∈ get_child_tables_aux tables fuel allowed top
  | 0, _, _, _, _, _, h, _ => by simp [get_top_level_table_aux] at h
  | fuel + 1, allowed, x, t, top, hnd, h, hfx => by
    by_cases hm : x ∈ allowed
    · simp only [get_top_level_table_aux, if_pos hm, hfx] at h
      cases hp : t.parent with
      | none =>
        rw [hp] at h
        cases h
        simp only [get_child_tables_aux]
        rw [if_pos (by rw [find_table_eq_name hfx]; exact hm)]
        exact List.mem_cons_self _ _
      | some p =>
        rw [hp] at h
        cases hfp : find_table tables p with
        | none =>
          cases fuel with
          | zero => simp [get_top_level_table_aux] at h
          | succ fuel2 =>
            by_cases hm2 : p ∈ allowed.erase x
            · simp [get_top_level_table_aux, hm2, hfp] at h
            · simp [get_top_level_table_aux, hm2] at h
        | some tp =>
          have ih := gtlt_mem_children tables fuel (allowed.erase x) p tp top
            (List.Nodup.erase _ hnd) h hfp
          have hpar : t.parent = some tp.name := by
            rw [hp, find_table_eq_name hfp]
          exact gct_aux_child_mem tables fuel allowed x top tp t hnd ih hm
            (find_table_mem hfx) hpar (find_table_eq_name hfx)
    · simp [get_top_level_table_aux, hm] at h

/-- C10 (confirmed): when create_merge_job is reached from
create_followup_jobs for a completing job whose file is still in
started_jobs, the computed table chain cannot be empty — the completing
job's own table contributes at least its own (exempted) job — so the
nonempty-chain assertion never fails and create_merge_job returns
without error. -/
theorem C10_merge_chain_nonempty (env : Env) (schema : Schema) (storage : Storage)
    (starting_job : LoadJob) (schema2 : Schema) (t top : TTableSchema)
    (hglt : get_load_table schema starting_job.file = (schema2, .ok t))
    (htop : get_top_level_table schema2.tables t.name = some top)
    (hnodup : (schema2.tables.map (fun v => v.name)).Nodup)
    (hstarted : starting_job.file ∈ storage.started_jobs) :
    ∃ r, create_merge_job env schema2 top starting_job storage = .ok r := by
  have hfind : find_table schema2.tables t.name = some t := glt_find_self hglt
  have htopfind : find_table schema2.tables top.name = some top :=
    gtlt_top_find schema2.tables _ _ _ _ htop
  have hmem : t ∈ get_child_tables schema2.tables top.name := by
    unfold get_child_tables
    rw [htopfind]
    exact gtlt_mem_children schema2.tables _ _ t.name t top hnodup htop hfind
  have hjobs : list_jobs_for_table storage t.name ≠ [] := by
    have hin : (TJobState.started_jobs, starting_job.file)
        ∈ list_jobs_for_table storage t.name := by
      unfold list_jobs_for_table
      refine List.mem_append.mpr (Or.inl (List.mem_append.mpr (Or.inl
        (List.mem_append.mpr (Or.inr ?_)))))
      apply List.mem_map.mpr
      refine ⟨starting_job.file, ?_, rfl⟩
      apply List.mem_filter.mpr
      refine ⟨hstarted, ?_⟩
      simp [glt_ok_name hglt]
    intro hempty
    rw [hempty] at hin
    cases hin
  cases hgo : create_merge_job_go storage starting_job
      (get_child_tables schema2.tables top.name) [] with
  | none => exact ⟨none, by simp [create_merge_job, hgo]⟩
  | some chain =>
    have hne : chain ≠ [] :=
      cmj_go_mem_nonempty storage starting_job _ t [] chain hmem hjobs hgo
    refine ⟨some (env.create_merge_job chain), ?_⟩
    have hemp : chain.isEmpty = false := by
      cases chain with
      | nil => cases hne rfl
      | cons a l => rfl
    simp [create_merge_job, hgo, hemp]

/-- C10: witness on the example schema — the completing orders job, still
in started_jobs, guarantees a nonempty chain. -/
theorem C10_witness :
    ∃ r, create_merge_job exEnv exSchema tOrders jOrders exStorage = .ok r :=
  C10_merge_chain_nonempty exEnv exSchema exStorage jOrders exSchema tOrders tOrders
    (by decide) (by decide) (by decide) (by decide)

theorem fail_job_ok {f : ParsedLoadJobFileName} {m : Option String} {s s2 : Storage}
    (h : fail_job f m s = .ok s2) :
    f ∈ s.started_jobs
    ∧ s2 = { s with started_jobs := s.started_jobs.erase f,
                    failed_jobs := s.failed_jobs ++ [(f, m)] } := by
  by_cases hm : f ∈ s.started_jobs
  · rw [fail_job, if_pos hm] at h
    exact ⟨hm, (Except.ok.inj h).symm⟩
  · rw [fail_job, if_neg hm] at h
    cases h

theorem retry_job_ok {f : ParsedLoadJobFileName} {s s2 : Storage}
    (h : retry_job f s = .ok s2) :
    f ∈ s.started_jobs
    ∧ s2 = { s with started_jobs := s.started_jobs.erase f,
                    new_jobs := s.new_jobs ++ [{ f with retry_count := f.retry_count + 1 }] } := by
  by_cases hm : f ∈ s.started_jobs
  · rw [retry_job, if_pos hm] at h
    exact ⟨hm, (Except.ok.inj h).symm⟩
  · rw [retry_job, if_neg hm] at h
    cases h

theorem complete_job_ok {f : ParsedLoadJobFileName} {s s2 : Storage}
    (h : complete_job f s = .ok s2) :
    f ∈ s.started_jobs
    ∧ s2 = { s with started_jobs := s.started_jobs.erase f,
                    completed_jobs := s.completed_jobs ++ [f] } := by
  by_cases hm : f ∈ s.started_jobs
  · rw [complete_job, if_pos hm] at h
    exact ⟨hm, (Except.ok.inj h).symm⟩
  · rw [complete_job, if_neg hm] at h
    cases h

theorem complete_job_of_mem {f : ParsedLoadJobFileName} {s : Storage}
    (hmem2 : f ∈ s.started_jobs) :
    complete_job f s = .ok { s with started_jobs := s.started_jobs.erase f,
                                    completed_jobs := s.completed_jobs ++ [f] } := by
  rw [complete_job, if_pos hmem2]

theorem place_followups_frame (fjs : List LoadJob) (s : Storage) :
    (place_followups fjs s).failed_jobs = s.failed_jobs
    ∧ (place_followups fjs s).completed_jobs = s.completed_jobs
    ∧ (place_followups fjs s).staged_update = s.staged_update
    ∧ (place_followups fjs s).archived = s.archived := by
  induction fjs generalizing s with
  | nil => exact ⟨rfl, rfl, rfl, rfl⟩
  | cons fj rest ih =>
    have hstep : place_followups (fj :: rest) s
        = place_followups rest (add_new_job fj.file
            (if fj.state == .running then TJobState.new_jobs else TJobState.started_jobs) s) :=
      rfl
    rw [hstep]
    obtain ⟨h1, h2, h3, h4⟩ := ih (add_new_job fj.file
      (if fj.state == .running then TJobState.new_jobs else TJobState.started_jobs) s)
    cases hrun : fj.state == .running with
    | true =>
      rw [hrun] at h1 h2 h3 h4
      simp only [if_true] at h1 h2 h3 h4
      exact ⟨h1, h2, h3, h4⟩
    | false =>
      rw [hrun] at h1 h2 h3 h4
      simp only [Bool.false_eq_true, if_false] at h1 h2 h3 h4
      exact ⟨h1, h2, h3, h4⟩

theorem place_followups_started_mono (fjs : List LoadJob) (s : Storage)
    {f : ParsedLoadJobFileName} (hm : f ∈ s.started_jobs) :
    f ∈ (place_followups fjs s).started_jobs := by
  induction fjs generalizing s with
  | nil => exact hm
  | cons fj rest ih =>
    have hstep : place_followups (fj :: rest) s
        = place_followups rest (add_new_job fj.file
            (if fj.state == .running then TJobState.new_jobs else TJobState.started_jobs) s) :=
      rfl
    rw [hstep]
    apply ih
    cases hrun : fj.state == .running with
    | true => simpa [hrun, add_new_job] using hm
    | false =>
      simp only [hrun, Bool.false_eq_true, if_false, add_new_job]
      exact List.mem_append.mpr (Or.inl hm)

theorem complete_one_job_frame (cfg : LoaderConfiguration) (env : Env)
    (load_id : String) (j : LoadJob) (st : LState) :
    (complete_one_job cfg env load_id j st).1.storage.archived = st.storage.archived
    ∧ (complete_one_job cfg env load_id j st).1.storage.staged_update
        = st.storage.staged_update
    ∧ (complete_one_job cfg env load_id j st).1.trace = st.trace := by
  cases hjs : j.state with
  | running => simp [complete_one_job, hjs]
  | failed =>
    cases hf : fail_job j.file_name j.exc st.storage with
    | error e => simp [complete_one_job, hjs, hf]
    | ok s2 =>
      obtain ⟨hm, hs2⟩ := fail_job_ok hf
      subst hs2
      by_cases hr : cfg.raise_on_failed_jobs = true <;>
        simp [complete_one_job, hjs, hf, hr]
  | retry =>
    cases hf : retry_job j.file_name st.storage with
    | error e => simp [complete_one_job, hjs, hf]
    | ok s2 =>
      obtain ⟨hm, hs2⟩ := retry_job_ok hf
      subst hs2
      simp [complete_one_job, hjs, hf]
  | completed =>
    cases hcf : create_followup_jobs env .completed j st.schema st.storage with
    | mk schema2 r =>
      cases r with
      | error e => simp [complete_one_job, hjs, hcf]
      | ok fjs =>
        obtain ⟨hp1, hp2, hp3, hp4⟩ := place_followups_frame fjs st.storage
        cases hcj : complete_job j.file_name (place_followups fjs st.storage) with
        | error e => simp [complete_one_job, hjs, hcf, hcj, hp3, hp4]
        | ok s2 =>
          obtain ⟨hm, hs2⟩ := complete_job_ok hcj
          subst hs2
          simp [complete_one_job, hjs, hcf, hcj, hp3, hp4]

theorem complete_jobs_go_frame (cfg : LoaderConfiguration) (env : Env)
    (load_id : String) :
    ∀ (jobs : List LoadJob) (st : LState) (acc : List LoadJob),
      (complete_jobs_go cfg env load_id jobs st acc).1.storage.archived
          = st.storage.archived
      ∧ (complete_jobs_go cfg env load_id jobs st acc).1.storage.staged_update
          = st.storage.staged_update
      ∧ (complete_jobs_go cfg env load_id jobs st acc).1.trace = st.trace
  | [], st, acc => ⟨rfl, rfl, rfl⟩
  | j :: rest, st, acc => by
    have hone := complete_one_job_frame cfg env load_id j st
    cases hc : complete_one_job cfg env load_id j st with
    | mk st2 r =>
      rw [hc] at hone
      cases r with
      | error e =>
        simp only [complete_jobs_go, hc]
        exact hone
      | ok extra =>
        simp only [complete_jobs_go, hc]
        have hrec := complete_jobs_go_frame cfg env load_id rest st2 (acc ++ extra)
        exact ⟨hrec.1.trans hone.1, hrec.2.1.trans hone.2.1, hrec.2.2.trans hone.2.2⟩

theorem complete_package_true (lid : String) (st : LState) :
    complete_package lid true st
      = ({ st with storage := { st.storage with archived := some true },
                   metrics := { st.metrics with
                     load_counter := st.metrics.load_counter + 1 } }, .ok ()) := by
  rfl

theorem poll_loop_ok_frame (cfg : LoaderConfiguration) (env : Env) (lid : String) :
    ∀ (fuel : Nat) (jobs : List LoadJob) (st st2 : LState),
      poll_loop cfg env lid fuel jobs st = (st2, .ok ()) →
      st2.storage.archived = st.storage.archived ∧ st2.trace = st.trace
  | 0, jobs, st, st2, h => by
    simp only [poll_loop] at h
    obtain ⟨h1, h2⟩ := Prod.mk.injEq .. ▸ h
    cases h2
  | fuel + 1, jobs, st, st2, h => by
    have hfr := complete_jobs_go_frame cfg env lid jobs st []
    cases hcj : complete_jobs_go cfg env lid jobs st [] with
    | mk stx r =>
      rw [hcj] at hfr
      cases r with
      | ok remaining =>
        simp only [poll_loop, complete_jobs, hcj] at h
        cases hrem : remaining.isEmpty with
        | true =>
          simp only [hrem, eq_self_iff_true, if_true] at h
          obtain ⟨h1, h2⟩ := Prod.mk.injEq .. ▸ h
          rw [← h1]
          exact ⟨hfr.1, hfr.2.2⟩
        | false =>
          simp only [hrem, Bool.false_eq_true, if_false] at h
          have hrec := poll_loop_ok_frame cfg env lid fuel remaining stx st2 h
          exact ⟨hrec.1.trans hfr.1, hrec.2.trans hfr.2.2⟩
      | error e =>
        cases e <;>
          simp only [poll_loop, complete_jobs, hcj, complete_package_true] at h <;>
          · obtain ⟨h1, h2⟩ := Prod.mk.injEq .. ▸ h
            cases h2

theorem schema_sync_frame (st : LState) :
    (schema_sync st).1.storage.new_jobs = st.storage.new_jobs
    ∧ (schema_sync st).1.storage.started_jobs = st.storage.started_jobs
    ∧ (schema_sync st).1.storage.archived = st.storage.archived
    ∧ (schema_sync st).1.trace = st.trace := by
  cases hs : st.storage.staged_update with
  | false => simp [schema_sync, hs]
  | true =>
    cases h1 : get_jobs_info none st.schema st.storage with
    | mk schema1 r1 =>
      cases r1 with
      | error e => simp [schema_sync, hs, h1]
      | ok l1 =>
        cases h2 : get_jobs_info (some "merge") schema1 st.storage with
        | mk schema2 r2 =>
          cases r2 with
          | error e => simp [schema_sync, hs, h1, h2]
          | ok l2 => simp [schema_sync, hs, h1, h2]

theorem schema_sync_ok_of_no_new (st : LState) (hnew : st.storage.new_jobs = []) :
    (schema_sync st).2 = .ok () := by
  cases hs : st.storage.staged_update with
  | false => simp [schema_sync, hs]
  | true =>
    have h1 : get_jobs_info none st.schema st.storage = (st.schema, .ok []) := by
      unfold get_jobs_info
      rw [hnew]
      rfl
    have h2 : get_jobs_info (some "merge") st.schema st.storage = (st.schema, .ok []) := by
      unfold get_jobs_info
      rw [hnew]
      rfl
    simp [schema_sync, hs, h1, h2]

theorem retrieve_jobs_empty (env : Env) (st : LState)
    (hstarted : st.storage.started_jobs = []) :
    retrieve_jobs env st = ({ st with trace := st.trace ++ [Event.retrieve] }, .ok (0, [])) := by
  simp [retrieve_jobs, hstarted]

theorem spool_new_jobs_empty (cfg : LoaderConfiguration) (env : Env) (st : LState)
    (hnew : st.storage.new_jobs = []) :
    spool_new_jobs cfg env st
      = ({ st with trace := st.trace ++ [Event.spool] }, .ok (0, [])) := by
  simp [spool_new_jobs, hnew]

theorem complete_package_false_empty (lid : String) (st : LState)
    (hnew : st.storage.new_jobs = []) (hstarted : st.storage.started_jobs = []) :
    complete_package lid false st
      = ({ st with trace := st.trace ++ [Event.complete_load lid],
                   storage := { st.storage with archived := some false },
                   metrics := { st.metrics with
                     load_counter := st.metrics.load_counter + 1 } }, .ok ()) := by
  simp [complete_package, complete_load_package, hnew, hstarted]

theorem retrieve_go_length (env : Env) :
    ∀ (l : List ParsedLoadJobFileName) (acc jobs : List LoadJob),
      retrieve_jobs_go env l acc = .ok jobs → jobs.length = acc.length + l.length
  | [], acc, jobs, h => by
    simp only [retrieve_jobs_go] at h
    cases Except.ok.inj h
    simp
  | f :: rest, acc, jobs, h => by
    cases hr : env.restore_file_load f with
    | ok j =>
      simp only [retrieve_jobs_go, hr] at h
      have h2 := retrieve_go_length env rest (acc ++ [j]) jobs h
      simp only [List.length_append, List.length_cons, List.length_nil] at h2 ⊢
      omega
    | terminal msg =>
      simp only [retrieve_jobs_go, hr] at h
      have h2 := retrieve_go_length env rest
        (acc ++ [EmptyLoadJob_from_file_path f .failed msg]) jobs h
      simp only [List.length_append, List.length_cons, List.length_nil] at h2 ⊢
      omega
    | transient msg => simp [retrieve_jobs_go, hr] at h
    | unexpected msg => simp [retrieve_jobs_go, hr] at h

theorem retrieve_jobs_ok_shape (env : Env) (st : LState) {st2 : LState}
    {n : Nat} {jobs : List LoadJob}
    (h : retrieve_jobs env st = (st2, .ok (n, jobs)))
    (hne : st.storage.started_jobs ≠ []) :
    jobs ≠ [] ∧ n = jobs.length
    ∧ st2.storage = st.storage ∧ st2.trace = st.trace ++ [Event.retrieve] := by
  cases he : st.storage.started_jobs.isEmpty with
  | true => exact absurd (List.isEmpty_iff.mp he) hne
  | false =>
    cases hg : retrieve_jobs_go env st.storage.started_jobs [] with
    | error e => simp [retrieve_jobs, he, hg] at h
    | ok js =>
      simp only [retrieve_jobs, he, Bool.false_eq_true, if_false, hg] at h
      obtain ⟨h1, h2⟩ := Prod.mk.injEq .. ▸ h
      obtain ⟨hn, hj⟩ := Prod.mk.injEq .. ▸ Except.ok.inj h2
      have hlen := retrieve_go_length env st.storage.started_jobs [] js hg
      subst hj
      refine ⟨?_, hn.symm, by rw [← h1], by rw [← h1]⟩
      intro hnil
      rw [hnil] at hlen
      simp at hlen
      exact hne (List.length_eq_zero.mp hlen.symm)

/-- C1: counterexample to the claim as stated — a run whose poll loop is
entered (one retrieved job), whose single polled job terminalizes at
once and which raises no error, yet the invocation ends with the package
not archived: the success path of the poll loop breaks out of the loop
without calling complete_package. -/
theorem C1_counterexample :
    (retrieve_jobs exEnv exSt).2 = .ok (1, [⟨fOrders, [.completed], none, false⟩])
    ∧ (load_single_package exCfg exEnv 5 "L1" exSt).2 = .ok ()
    ∧ (load_single_package exCfg exEnv 5 "L1" exSt).1.storage.new_jobs = []
    ∧ (load_single_package exCfg exEnv 5 "L1" exSt).1.storage.started_jobs = []
    ∧ (load_single_package exCfg exEnv 5 "L1" exSt).1.storage.archived = none := by
  refine ⟨by decide, by decide, by decide, by decide, by decide⟩

/-- C1 (corrected): a successful pass of the poll loop leaves the
archival state untouched: the invocation that polls the jobs does not
archive the package.  An invocation finding no started and no new jobs
archives it with aborted false, leaving new_jobs and started_jobs empty. -/
theorem C1_archive_deferred :
    (∀ (cfg : LoaderConfiguration) (env : Env) (lid : String) (fuel : Nat)
      (jobs : List LoadJob) (st st2 : LState),
      poll_loop cfg env lid fuel jobs st = (st2, .ok ()) →
      st2.storage.archived = st.storage.archived)
    ∧ (∀ (cfg : LoaderConfiguration) (env : Env) (fuel : Nat) (lid : String)
      (st st2 : LState),
      st.storage.started_jobs ≠ [] →
      load_single_package cfg env fuel lid st = (st2, .ok ()) →
      st2.storage.archived = st.storage.archived)
    ∧ (∀ (cfg : LoaderConfiguration) (env : Env) (fuel : Nat) (lid : String)
      (st : LState),
      st.storage.started_jobs = [] → st.storage.new_jobs = [] →
      (load_single_package cfg env fuel lid st).2 = .ok ()
      ∧ (load_single_package cfg env fuel lid st).1.storage.archived = some false
      ∧ (load_single_package cfg env fuel lid st).1.storage.new_jobs = []
      ∧ (load_single_package cfg env fuel lid st).1.storage.started_jobs = []) := by
  refine ⟨?_, ?_, ?_⟩
  · intro cfg env lid fuel jobs st st2 h
    exact (poll_loop_ok_frame cfg env lid fuel jobs st st2 h).1
  · intro cfg env fuel lid st st2 hne h
    obtain ⟨hsn, hss, hsa, hst⟩ := schema_sync_frame st
    cases hsync : schema_sync st with
    | mk st1 r1 =>
      rw [hsync] at hsn hss hsa hst
      cases r1 with
      | error e =>
        simp only [load_single_package, hsync] at h
        obtain ⟨h1, h2⟩ := Prod.mk.injEq .. ▸ h
        cases h2
      | ok u =>
        cases hret : retrieve_jobs env st1 with
        | mk st2r r2 =>
          cases r2 with
          | error e =>
            simp only [load_single_package, hsync, hret] at h
            obtain ⟨h1, h2⟩ := Prod.mk.injEq .. ▸ h
            cases h2
          | ok pr =>
            cases pr with
            | mk rc rjobs =>
              have hne1 : st1.storage.started_jobs ≠ [] := by rw [hss]; exact hne
              obtain ⟨hjne, hrc, hst2r, htr⟩ :=
                retrieve_jobs_ok_shape env st1 hret hne1
              have hje : rjobs.isEmpty = false := by
                cases rjobs with
                | nil => cases hjne rfl
                | cons a l => rfl
              have hrc0 : (rc == 0) = false := by
                rw [hrc]
                cases rjobs with
                | nil => cases hjne rfl
                | cons a l => rfl
              simp only [load_single_package, hsync, hret, hje, Bool.false_eq_true,
                if_false, hrc0] at h
              have hp := (poll_loop_ok_frame cfg env lid fuel rjobs st2r st2 h).1
              rw [hp, hst2r, hsa]
  · intro cfg env fuel lid st hstarted hnew
    obtain ⟨hsn, hss, hsa, hst⟩ := schema_sync_frame st
    have hsok := schema_sync_ok_of_no_new st hnew
    cases hsync : schema_sync st with
    | mk st1 r1 =>
      rw [hsync] at hsn hss hsa hst hsok
      cases r1 with
      | error e => cases hsok
      | ok u =>
        have hss1 : st1.storage.started_jobs = [] := hss.trans hstarted
        have hsn1 : st1.storage.new_jobs = [] := hsn.trans hnew
        have hret := retrieve_jobs_empty env st1 hss1
        have hspool := spool_new_jobs_empty cfg env
          ({ st1 with trace := st1.trace ++ [Event.retrieve] }) hsn1
        have hcp := complete_package_false_empty lid
          ({ { st1 with trace := st1.trace ++ [Event.retrieve] } with
              trace := ({ st1 with trace := st1.trace ++ [Event.retrieve] } : LState).trace
                ++ [Event.spool] }) hsn1 hss1
        simp only [load_single_package, hsync]
        rw [hret]
        simp only [List.isEmpty_nil, if_true]
        rw [hspool]
        simp only [Nat.lt_irrefl, if_false, beq_self_eq_true, if_true]
        rw [hcp]
        exact ⟨rfl, rfl, hsn1, hss1⟩

/-- C1: witness — the deferred-archive theorem applied to the concrete
resume run and to the later empty invocation that performs the archive. -/
theorem C1_witness :
    ((load_single_package exCfg exEnv 5 "L1" exSt).1.storage.archived
        = exSt.storage.archived)
    ∧ ((load_single_package exCfg exEnv 3 "L2" exStEmpty).2 = .ok ()
        ∧ (load_single_package exCfg exEnv 3 "L2" exStEmpty).1.storage.archived
            = some false
        ∧ (load_single_package exCfg exEnv 3 "L2" exStEmpty).1.storage.new_jobs = []
        ∧ (load_single_package exCfg exEnv 3 "L2" exStEmpty).1.storage.started_jobs
            = []) := by
  constructor
  · exact C1_archive_deferred.2.1 exCfg exEnv 5 "L1" exSt
      (load_single_package exCfg exEnv 5 "L1" exSt).1 (by decide) (by decide)
  · exact C1_archive_deferred.2.2 exCfg exEnv 3 "L2" exStEmpty (by decide) (by decide)

theorem cjs_go_failed_raise (cfg : LoaderConfiguration) (env : Env) (lid : String)
    (hraise : cfg.raise_on_failed_jobs = true) (j : LoadJob) (hj : j.state = .failed) :
    ∀ (pre rest : List LoadJob) (st : LState) (acc : List LoadJob),
      (∀ k ∈ pre, k.state = .running) →
      j.file ∈ st.storage.started_jobs →
      complete_jobs_go cfg env lid (pre ++ j :: rest) st acc
        = ({ st with storage := { st.storage with
              started_jobs := st.storage.started_jobs.erase j.file,
              failed_jobs := st.storage.failed_jobs ++ [(j.file, j.exc)] } },
            .error (.jobFailed lid j.file.job_id j.exc))
  | [], rest, st, acc => by
    intro hpre hmem
    have hone : complete_one_job cfg env lid j st
        = ({ st with storage := { st.storage with
              started_jobs := st.storage.started_jobs.erase j.file,
              failed_jobs := st.storage.failed_jobs ++ [(j.file, j.exc)] } },
            .error (.jobFailed lid j.file.job_id j.exc)) := by
      simp [complete_one_job, hj, fail_job, LoadJob.file_name, hmem, hraise]
    simp only [List.nil_append, complete_jobs_go, hone]
  | k :: pre, rest, st, acc => by
    intro hpre hmem
    have hk : k.state = .running := hpre k (List.mem_cons_self _ _)
    have hone : complete_one_job cfg env lid k st = (st, .ok [k.advance]) := by
      simp [complete_one_job, hk]
    simp only [List.cons_append, complete_jobs_go, hone]
    exact cjs_go_failed_raise cfg env lid hraise j hj pre rest st (acc ++ [k.advance])
      (fun x hx => hpre x (List.mem_cons_of_mem _ hx)) hmem

/-- C3 (confirmed): a polled job in failed state under raise_on_failed_jobs
first has its file moved to failed_jobs with the exception message
persisted, then LoadClientJobFailed with the load id and the
retry-insensitive job_id is raised; the poll loop completes the package
with aborted true — never calling the destination's complete_load — and
re-raises the error to the caller. -/
theorem C3_failed_job_fatal (cfg : LoaderConfiguration) (env : Env) (lid : String)
    (fuel : Nat) (pre rest : List LoadJob) (j : LoadJob) (st : LState)
    (hraise : cfg.raise_on_failed_jobs = true)
    (hpre : ∀ k ∈ pre, k.state = .running)
    (hj : j.state = .failed)
    (hmem : j.file ∈ st.storage.started_jobs) :
    ∃ st2, poll_loop cfg env lid (fuel + 1) (pre ++ j :: rest) st
        = (st2, .error (.jobFailed lid j.file.job_id j.exc))
      ∧ (j.file, j.exc) ∈ st2.storage.failed_jobs
      ∧ st2.storage.archived = some true
      ∧ st2.trace = st.trace := by
  have hgo := cjs_go_failed_raise cfg env lid hraise j hj pre rest st [] hpre hmem
  refine ⟨{ st with
      storage := { st.storage with
        started_jobs := st.storage.started_jobs.erase j.file,
        failed_jobs := st.storage.failed_jobs ++ [(j.file, j.exc)],
        archived := some true },
      metrics := { st.metrics with load_counter := st.metrics.load_counter + 1 } },
    ?_, ?_, ?_, ?_⟩
  · simp only [poll_loop, complete_jobs, hgo, complete_package_true]
  · exact List.mem_append.mpr (Or.inr (List.mem_cons_self _ _))
  · rfl
  · rfl

/-- C3: witness — a single failed job with message bad row under the
raising configuration. -/
theorem C3_witness :
    ∃ st2, poll_loop exCfgRaise exEnv "L1" 1 ([] ++ jFailed :: []) exSt
        = (st2, .error (.jobFailed "L1" jFailed.file.job_id jFailed.exc))
      ∧ (jFailed.file, jFailed.exc) ∈ st2.storage.failed_jobs
      ∧ st2.storage.archived = some true
      ∧ st2.trace = exSt.trace :=
  C3_failed_job_fatal exCfgRaise exEnv "L1" 0 [] [] jFailed exSt (by decide)
    (by intro k hk; cases hk) (by decide) (by decide)

/-- C4 (confirmed): the spool worker's outcome taxonomy — unsupported
file format, unknown table, unsupported write disposition and a terminal
start_file_load failure each synthesize an EmptyLoadJob in failed state
carrying the exception text and still move the file from new_jobs to
started_jobs, while transient and all other unexpected start failures
return none and leave the file in new_jobs with no state transition. -/
theorem C4_spool_outcomes (env : Env) (f : ParsedLoadJobFileName) (schema : Schema)
    (storage : Storage) (hnew : f ∈ storage.new_jobs) :
    (env.supported_formats.contains f.file_format = false →
      w_spool_job env f schema storage
        = ((schema, { storage with new_jobs := storage.new_jobs.erase f,
                                   started_jobs := storage.started_jobs ++ [f] }),
            .ok (some (EmptyLoadJob_from_file_path f .failed
              ("LoadClientUnsupportedFileFormats: " ++ f.file_format)))))
    ∧ (∀ schema2 e, env.supported_formats.contains f.file_format = true →
        get_load_table schema f = (schema2, .error e) →
        w_spool_job env f schema storage
          = ((schema2, { storage with new_jobs := storage.new_jobs.erase f,
                                      started_jobs := storage.started_jobs ++ [f] }),
              .ok (some (EmptyLoadJob_from_file_path f .failed
                ("LoadJobUnknownTableException: " ++ f.table_name)))))
    ∧ (∀ schema2 table, env.supported_formats.contains f.file_format = true →
        get_load_table schema f = (schema2, .ok table) →
        (["append", "replace", "merge"].contains (table.write_disposition.getD "")
              = false →
          w_spool_job env f schema storage
            = ((schema2, { storage with new_jobs := storage.new_jobs.erase f,
                                        started_jobs := storage.started_jobs ++ [f] }),
                .ok (some (EmptyLoadJob_from_file_path f .failed
                  ("LoadClientUnsupportedWriteDisposition: " ++ f.table_name)))))
        ∧ (∀ msg, ["append", "replace", "merge"].contains
              (table.write_disposition.getD "") = true →
            env.start_file_load table f = .terminal msg →
            w_spool_job env f schema storage
              = ((schema2, { storage with new_jobs := storage.new_jobs.erase f,
                                          started_jobs := storage.started_jobs ++ [f] }),
                  .ok (some (EmptyLoadJob_from_file_path f .failed msg))))
        ∧ (∀ msg, ["append", "replace", "merge"].contains
              (table.write_disposition.getD "") = true →
            env.start_file_load table f = .transient msg →
            w_spool_job env f schema storage = ((schema2, storage), .ok none))
        ∧ (∀ msg, ["append", "replace", "merge"].contains
              (table.write_disposition.getD "") = true →
            env.start_file_load table f = .unexpected msg →
            w_spool_job env f schema storage = ((schema2, storage), .ok none))) := by
  refine ⟨?_, ?_, ?_⟩
  · intro hfmt
    have hf2 : ¬f.file_format ∈ env.supported_formats := by simpa using hfmt
    simp [w_spool_job, hf2, start_job, EmptyLoadJob_from_file_path,
      LoadJob.file_name, hnew]
  · intro schema2 e hfmt hglt
    have hf2 : f.file_format ∈ env.supported_formats := by simpa using hfmt
    simp [w_spool_job, hf2, hglt, start_job, EmptyLoadJob_from_file_path,
      LoadJob.file_name, hnew]
  · intro schema2 table hfmt hglt
    have hf2 : f.file_format ∈ env.supported_formats := by simpa using hfmt
    refine ⟨?_, ?_, ?_, ?_⟩
    · intro hdisp
      obtain ⟨hda, hdb, hdc⟩ :
          ¬table.write_disposition.getD "" = "append"
          ∧ ¬table.write_disposition.getD "" = "replace"
          ∧ ¬table.write_disposition.getD "" = "merge" := by simpa using hdisp
      simp [w_spool_job, hf2, hglt, hda, hdb, hdc, start_job,
        EmptyLoadJob_from_file_path, LoadJob.file_name, hnew]
    · intro msg hdisp hterm
      have hcond : ¬(¬table.write_disposition.getD "" = "append"
          ∧ ¬table.write_disposition.getD "" = "replace"
          ∧ ¬table.write_disposition.getD "" = "merge") := by
        have hd : table.write_disposition.getD "" = "append"
            ∨ table.write_disposition.getD "" = "replace"
            ∨ table.write_disposition.getD "" = "merge" := by simpa using hdisp
        rintro ⟨ha, hb, hc⟩
        rcases hd with h | h | h
        · exact ha h
        · exact hb h
        · exact hc h
      simp [w_spool_job, hf2, hglt, hcond, hterm, start_job,
        EmptyLoadJob_from_file_path, LoadJob.file_name, hnew]
    · intro msg hdisp htrans
      have hcond : ¬(¬table.write_disposition.getD "" = "append"
          ∧ ¬table.write_disposition.getD "" = "replace"
          ∧ ¬table.write_disposition.getD "" = "merge") := by
        have hd : table.write_disposition.getD "" = "append"
            ∨ table.write_disposition.getD "" = "replace"
            ∨ table.write_disposition.getD "" = "merge" := by simpa using hdisp
        rintro ⟨ha, hb, hc⟩
        rcases hd with h | h | h
        · exact ha h
        · exact hb h
        · exact hc h
      simp [w_spool_job, hf2, hglt, hcond, htrans]
    · intro msg hdisp hunex
      have hcond : ¬(¬table.write_disposition.getD "" = "append"
          ∧ ¬table.write_disposition.getD "" = "replace"
          ∧ ¬table.write_disposition.getD "" = "merge") := by
        have hd : table.write_disposition.getD "" = "append"
            ∨ table.write_disposition.getD "" = "replace"
            ∨ table.write_disposition.getD "" = "merge" := by simpa using hdisp
        rintro ⟨ha, hb, hc⟩
        rcases hd with h | h | h
        · exact ha h
        · exact hb h
        · exact hc h
      simp [w_spool_job, hf2, hglt, hcond, hunex]

/-- C4: witness — spooling a jsonl file against a destination that only
supports parquet fails terminally and still moves the file to started. -/
theorem C4_witness :
    w_spool_job exEnvNoJsonl fOrders exSchema exStorageNew
      = ((exSchema, { exStorageNew with
            new_jobs := exStorageNew.new_jobs.erase fOrders,
            started_jobs := exStorageNew.started_jobs ++ [fOrders] }),
          .ok (some (EmptyLoadJob_from_file_path fOrders .failed
            ("LoadClientUnsupportedFileFormats: " ++ fOrders.file_format)))) :=
  (C4_spool_outcomes exEnvNoJsonl fOrders exSchema exStorageNew (by decide)).1
    (by decide)

theorem place_followups_new_mono (fjs : List LoadJob) (s : Storage)
    {f : ParsedLoadJobFileName} (hm : f ∈ s.new_jobs) :
    f ∈ (place_followups fjs s).new_jobs := by
  induction fjs generalizing s with
  | nil => exact hm
  | cons fj rest ih =>
    have hstep : place_followups (fj :: rest) s
        = place_followups rest (add_new_job fj.file
            (if fj.state == .running then TJobState.new_jobs else TJobState.started_jobs) s) :=
      rfl
    rw [hstep]
    apply ih
    cases hrun : fj.state == .running with
    | true =>
      simp only [hrun, if_true, add_new_job]
      exact List.mem_append.mpr (Or.inl hm)
    | false => simpa [hrun, add_new_job] using hm

theorem place_followups_mem (fjs : List LoadJob) (s : Storage) (fj : LoadJob)
    (hm : fj ∈ fjs) :
    (fj.state = .running → fj.file ∈ (place_followups fjs s).new_jobs)
    ∧ (fj.state ≠ .running → fj.file ∈ (place_followups fjs s).started_jobs) := by
  induction fjs generalizing s with
  | nil => cases hm
  | cons g rest ih =>
    have hstep : place_followups (g :: rest) s
        = place_followups rest (add_new_job g.file
            (if g.state == .running then TJobState.new_jobs else TJobState.started_jobs) s) :=
      rfl
    rw [hstep]
    rcases List.mem_cons.mp hm with heq | hm2
    · subst heq
      constructor
      · intro hrun
        have hb : (fj.state == TLoadJobState.running) = true := by simp [hrun]
        apply place_followups_new_mono
        simp only [hb, if_true, add_new_job]
        exact List.mem_append.mpr (Or.inr (List.mem_cons_self _ _))
      · intro hrun
        have hb : (fj.state == TLoadJobState.running) = false := by simp [hrun]
        apply place_followups_started_mono
        simp only [hb, Bool.false_eq_true, if_false, add_new_job]
        exact List.mem_append.mpr (Or.inr (List.mem_cons_self _ _))
    · exact ih _ hm2

/-- C5 (confirmed): when a polled job completes, every followup job with
advertised state running is inserted into new_jobs and kept out of the
remaining set, every other followup is inserted into started_jobs and
appended to the remaining set of the current cycle, and all insertions
happen on the storage before complete_job moves the completing job's
file to completed_jobs. -/
theorem C5_followup_placement (cfg : LoaderConfiguration) (env : Env) (lid : String)
    (j : LoadJob) (st : LState) (schema2 : Schema) (fjs : List LoadJob)
    (hstate : j.state = .completed)
    (hcf : create_followup_jobs env .completed j st.schema st.storage = (schema2, .ok fjs))
    (hstarted : j.file ∈ st.storage.started_jobs)
    (hne : ∀ fj ∈ fjs, fj.file ≠ j.file) :
    ∃ storage2,
      complete_job j.file_name (place_followups fjs st.storage) = .ok storage2
      ∧ complete_one_job cfg env lid j st
          = ({ st with
                schema := schema2,
                storage := storage2,
                metrics := bump_terminal st.metrics TLoadJobState.completed },
              .ok (fjs.filter (fun fj => !(fj.state == .running))))
      ∧ (∀ fj ∈ fjs, fj.state = .running →
          fj.file ∈ storage2.new_jobs
          ∧ fj ∉ fjs.filter (fun fj2 => !(fj2.state == .running)))
      ∧ (∀ fj ∈ fjs, fj.state ≠ .running →
          fj.file ∈ storage2.started_jobs
          ∧ fj ∈ fjs.filter (fun fj2 => !(fj2.state == .running)))
      ∧ j.file ∈ storage2.completed_jobs := by
  have hjmem : j.file ∈ (place_followups fjs st.storage).started_jobs :=
    place_followups_started_mono fjs st.storage hstarted
  have hcj := complete_job_of_mem (s := place_followups fjs st.storage) hjmem
  refine ⟨_, hcj, ?_, ?_, ?_, ?_⟩
  · simp [complete_one_job, hstate, hcf, LoadJob.file_name, hcj]
  · intro fj hm hrun
    constructor
    · exact (place_followups_mem fjs st.storage fj hm).1 hrun
    · intro hmf
      have hpred := (List.mem_filter.mp hmf).2
      rw [hrun] at hpred
      simp at hpred
  · intro fj hm hrun
    constructor
    · have hstmem := (place_followups_mem fjs st.storage fj hm).2 hrun
      show fj.file ∈ (place_followups fjs st.storage).started_jobs.erase j.file
      exact (List.mem_erase_of_ne (hne fj hm)).mpr hstmem
    · refine List.mem_filter.mpr ⟨hm, ?_⟩
      simp [hrun]
  · exact List.mem_append.mpr (Or.inr (List.mem_cons_self _ _))

/-- C5: witness — the completing orders job emits the merge followup,
which lands in started_jobs and in the remaining set. -/
theorem C5_witness :
    ∃ storage2,
      complete_job jOrders.file_name (place_followups [jMerge] exSt.storage) = .ok storage2
      ∧ complete_one_job exCfg exEnv "L1" jOrders exSt
          = ({ exSt with
                schema := exSchema,
                storage := storage2,
                metrics := bump_terminal exSt.metrics TLoadJobState.completed },
              .ok ([jMerge].filter (fun fj => !(fj.state == .running))))
      ∧ (∀ fj ∈ [jMerge], fj.state = .running →
          fj.file ∈ storage2.new_jobs
          ∧ fj ∉ [jMerge].filter (fun fj2 => !(fj2.state == .running)))
      ∧ (∀ fj ∈ [jMerge], fj.state ≠ .running →
          fj.file ∈ storage2.started_jobs
          ∧ fj ∈ [jMerge].filter (fun fj2 => !(fj2.state == .running)))
      ∧ jOrders.file ∈ storage2.completed_jobs :=
  C5_followup_placement exCfg exEnv "L1" jOrders exSt exSchema [jMerge]
    (by decide) (by decide) (by decide) (by decide)

/-- C8: counterexample to the claim as stated — with raise_on_failed_jobs
set, a failed job's file undergoes the terminal transition to
failed_jobs, yet neither the per-state gauge and counter nor the wait
summary is updated, because LoadClientJobFailed is raised first. -/
theorem C8_counterexample :
    (complete_jobs exCfgRaise exEnv "L1" [jFailed] exSt).2
        = .error (.jobFailed "L1" "orders.f1" (some "bad row"))
    ∧ (jFailed.file, some "bad row")
        ∈ (complete_jobs exCfgRaise exEnv "L1" [jFailed] exSt).1.storage.failed_jobs
    ∧ (complete_jobs exCfgRaise exEnv "L1" [jFailed] exSt).1.metrics.cnt_failed = 0
    ∧ (complete_jobs exCfgRaise exEnv "L1" [jFailed] exSt).1.metrics.gauge_failed = 0
    ∧ (complete_jobs exCfgRaise exEnv "L1" [jFailed] exSt).1.metrics.wait_obs = 0 := by
  refine ⟨by decide, by decide, by decide, by decide, by decide⟩

/-- C8 (corrected): every terminal transition performed by the
complete_jobs loop body increments the per-state gauge and counter and
observes the wait duration — except when raise_on_failed_jobs is set and
the polled job failed, in which case the file still moves to failed_jobs
but the error is raised before the metrics update, leaving gauge,
counter and wait summary unchanged. -/
theorem C8_metrics_on_terminal (cfg : LoaderConfiguration) (env : Env) (lid : String)
    (j : LoadJob) (st : LState) :
    (j.state = .failed → cfg.raise_on_failed_jobs = false →
      j.file ∈ st.storage.started_jobs →
      ∃ st2, complete_one_job cfg env lid j st = (st2, .ok [])
        ∧ st2.metrics.gauge_failed = st.metrics.gauge_failed + 1
        ∧ st2.metrics.cnt_failed = st.metrics.cnt_failed + 1
        ∧ st2.metrics.wait_obs = st.metrics.wait_obs + 1
        ∧ (j.file, j.exc) ∈ st2.storage.failed_jobs)
    ∧ (j.state = .completed →
      ∀ schema2 fjs,
      create_followup_jobs env .completed j st.schema st.storage = (schema2, .ok fjs) →
      j.file ∈ st.storage.started_jobs →
      ∃ st2 extra, complete_one_job cfg env lid j st = (st2, .ok extra)
        ∧ st2.metrics.gauge_completed = st.metrics.gauge_completed + 1
        ∧ st2.metrics.cnt_completed = st.metrics.cnt_completed + 1
        ∧ st2.metrics.wait_obs = st.metrics.wait_obs + 1
        ∧ j.file ∈ st2.storage.completed_jobs)
    ∧ (j.state = .failed → cfg.raise_on_failed_jobs = true →
      j.file ∈ st.storage.started_jobs →
      ∃ st2, complete_one_job cfg env lid j st
          = (st2, .error (.jobFailed lid j.file.job_id j.exc))
        ∧ st2.metrics = st.metrics
        ∧ (j.file, j.exc) ∈ st2.storage.failed_jobs) := by
  refine ⟨?_, ?_, ?_⟩
  · intro hjs hraise hmem
    refine ⟨{ st with
        storage := { st.storage with
          started_jobs := st.storage.started_jobs.erase j.file,
          failed_jobs := st.storage.failed_jobs ++ [(j.file, j.exc)] },
        metrics := bump_terminal st.metrics TLoadJobState.failed },
      ?_, rfl, rfl, rfl, ?_⟩
    · simp [complete_one_job, hjs, fail_job, LoadJob.file_name, hmem, hraise]
    · exact List.mem_append.mpr (Or.inr (List.mem_cons_self _ _))
  · intro hjs schema2 fjs hcf hmem
    have hjmem : j.file ∈ (place_followups fjs st.storage).started_jobs :=
      place_followups_started_mono fjs st.storage hmem
    have hcj := complete_job_of_mem (s := place_followups fjs st.storage) hjmem
    refine ⟨{ st with
        schema := schema2,
        storage := { place_followups fjs st.storage with
          started_jobs := (place_followups fjs st.storage).started_jobs.erase j.file,
          completed_jobs := (place_followups fjs st.storage).completed_jobs ++ [j.file] },
        metrics := bump_terminal st.metrics TLoadJobState.completed },
      fjs.filter (fun fj => !(fj.state == .running)), ?_, rfl, rfl, rfl, ?_⟩
    · simp [complete_one_job, hjs, hcf, LoadJob.file_name, hcj]
    · exact List.mem_append.mpr (Or.inr (List.mem_cons_self _ _))
  · intro hjs hraise hmem
    refine ⟨{ st with
        storage := { st.storage with
          started_jobs := st.storage.started_jobs.erase j.file,
          failed_jobs := st.storage.failed_jobs ++ [(j.file, j.exc)] } },
      ?_, rfl, ?_⟩
    · simp [complete_one_job, hjs, fail_job, LoadJob.file_name, hmem, hraise]
    · exact List.mem_append.mpr (Or.inr (List.mem_cons_self _ _))

/-- C8: witness — a failed job under the non-raising configuration
increments the failed metrics and observes the wait. -/
theorem C8_witness :
    ∃ st2, complete_one_job exCfg exEnv "L1" jFailed exSt = (st2, .ok [])
      ∧ st2.metrics.gauge_failed = exSt.metrics.gauge_failed + 1
      ∧ st2.metrics.cnt_failed = exSt.metrics.cnt_failed + 1
      ∧ st2.metrics.wait_obs = exSt.metrics.wait_obs + 1
      ∧ (jFailed.file, jFailed.exc) ∈ st2.storage.failed_jobs :=
  (C8_metrics_on_terminal exCfg exEnv "L1" jFailed exSt).1 (by decide) (by decide)
    (by decide)

theorem retrieve_jobs_trace (env : Env) (st : LState) :
    (retrieve_jobs env st).1.trace = st.trace ++ [Event.retrieve] := by
  cases he : st.storage.started_jobs.isEmpty with
  | true => simp [retrieve_jobs, he]
  | false =>
    cases hg : retrieve_jobs_go env st.storage.started_jobs [] with
    | error e => simp [retrieve_jobs, he, hg]
    | ok jobs => simp [retrieve_jobs, he, hg]

theorem spool_new_jobs_trace (cfg : LoaderConfiguration) (env : Env) (st : LState) :
    (spool_new_jobs cfg env st).1.trace = st.trace ++ [Event.spool] := by
  simp only [spool_new_jobs]
  split
  · rfl
  · split
    · rfl
    · rfl

theorem complete_package_false_trace (lid : String) (st : LState) :
    (complete_package lid false st).1.trace = st.trace ++ [Event.complete_load lid] := by
  cases hc : complete_load_package false st.storage with
  | error e => simp [complete_package, hc]
  | ok s2 => simp [complete_package, hc]

theorem poll_loop_trace_any (cfg : LoaderConfiguration) (env : Env) (lid : String) :
    ∀ (fuel : Nat) (jobs : List LoadJob) (st : LState),
      (poll_loop cfg env lid fuel jobs st).1.trace = st.trace
  | 0, jobs, st => rfl
  | fuel + 1, jobs, st => by
    have hfr := complete_jobs_go_frame cfg env lid jobs st []
    cases hcj : complete_jobs_go cfg env lid jobs st [] with
    | mk stx r =>
      rw [hcj] at hfr
      have hfrt : stx.trace = st.trace := hfr.2.2
      cases r with
      | ok remaining =>
        cases hrem : remaining.isEmpty with
        | true => simp [poll_loop, complete_jobs, hcj, hrem, hfrt]
        | false =>
          have hrec := poll_loop_trace_any cfg env lid fuel remaining stx
          simp [poll_loop, complete_jobs, hcj, hrem, hrec, hfrt]
      | error e =>
        cases e <;> simp [poll_loop, complete_jobs, hcj, complete_package_true, hfrt]

theorem retrieve_go_ok (env : Env) :
    ∀ (l : List ParsedLoadJobFileName) (acc : List LoadJob),
      (∀ g ∈ l, (env.restore_file_load g).proceeds = true) →
      ∃ jobs, retrieve_jobs_go env l acc = .ok jobs
        ∧ (∀ (f2 : ParsedLoadJobFileName) (msg : String), f2 ∈ l →
            env.restore_file_load f2 = .terminal msg →
            EmptyLoadJob_from_file_path f2 .failed msg ∈ jobs)
        ∧ (∀ x ∈ acc, x ∈ jobs)
  | [], acc, hall =>
    ⟨acc, rfl, fun f2 msg hm _ => absurd hm (List.not_mem_nil _), fun x hx => hx⟩
  | f :: rest, acc, hall => by
    have hf := hall f (List.mem_cons_self _ _)
    cases hr : env.restore_file_load f with
    | ok j =>
      obtain ⟨jobs, hgo, hmem, hsub⟩ := retrieve_go_ok env rest (acc ++ [j])
        (fun g hg => hall g (List.mem_cons_of_mem _ hg))
      refine ⟨jobs, ?_, ?_, ?_⟩
      · simp only [retrieve_jobs_go, hr]
        exact hgo
      · intro f2 msg hm hterm
        rcases List.mem_cons.mp hm with heq | hm2
        · subst heq
          rw [hr] at hterm
          cases hterm
        · exact hmem f2 msg hm2 hterm
      · intro x hx
        exact hsub x (List.mem_append.mpr (Or.inl hx))
    | terminal msg0 =>
      obtain ⟨jobs, hgo, hmem, hsub⟩ := retrieve_go_ok env rest
        (acc ++ [EmptyLoadJob_from_file_path f .failed msg0])
        (fun g hg => hall g (List.mem_cons_of_mem _ hg))
      refine ⟨jobs, ?_, ?_, ?_⟩
      · simp only [retrieve_jobs_go, hr]
        exact hgo
      · intro f2 msg hm hterm
        rcases List.mem_cons.mp hm with heq | hm2
        · subst heq
          rw [hr] at hterm
          cases hterm
          exact hsub _ (List.mem_append.mpr (Or.inr (List.mem_cons_self _ _)))
        · exact hmem f2 msg hm2 hterm
      · intro x hx
        exact hsub x (List.mem_append.mpr (Or.inl hx))
    | transient m =>
      rw [hr] at hf
      simp [DestOutcome.proceeds] at hf
    | unexpected m =>
      rw [hr] at hf
      simp [DestOutcome.proceeds] at hf

theorem retrieve_go_err (env : Env) :
    ∀ (pre post : List ParsedLoadJobFileName) (f : ParsedLoadJobFileName)
      (msg : String) (acc : List LoadJob),
      (∀ g ∈ pre, (env.restore_file_load g).proceeds = true) →
      (env.restore_file_load f = .transient msg ∨
        env.restore_file_load f = .unexpected msg) →
      retrieve_jobs_go env (pre ++ f :: post) acc = .error (.destinationError msg)
  | [], post, f, msg, acc, hall, hf => by
    rcases hf with hf | hf
    · simp only [List.nil_append, retrieve_jobs_go, hf]
    · simp only [List.nil_append, retrieve_jobs_go, hf]
  | g :: pre, post, f, msg, acc, hall, hf => by
    have hg := hall g (List.mem_cons_self _ _)
    cases hr : env.restore_file_load g with
    | ok j =>
      simp only [List.cons_append, retrieve_jobs_go, hr]
      exact retrieve_go_err env pre post f msg (acc ++ [j])
        (fun x hx => hall x (List.mem_cons_of_mem _ hx)) hf
    | terminal m =>
      simp only [List.cons_append, retrieve_jobs_go, hr]
      exact retrieve_go_err env pre post f msg
        (acc ++ [EmptyLoadJob_from_file_path g .failed m])
        (fun x hx => hall x (List.mem_cons_of_mem _ hx)) hf
    | transient m =>
      rw [hr] at hg
      simp [DestOutcome.proceeds] at hg
    | unexpected m =>
      rw [hr] at hg
      simp [DestOutcome.proceeds] at hg

/-- C6 (confirmed): retrieve_jobs runs before any spooling (the event
trace of every run opens with the retrieve event); a terminal
restore_file_load failure yields an EmptyLoadJob in failed state while
retrieval continues over the remaining started files; a transient or any
other (unexpected) restore failure propagates and aborts the run; and
spool_new_jobs is never invoked when retrieval returned any job
(started_jobs nonempty). -/
theorem C6_retrieve_then_spool :
    (∀ (env : Env) (st : LState) (f : ParsedLoadJobFileName) (msg : String),
      (∀ g ∈ st.storage.started_jobs, (env.restore_file_load g).proceeds = true) →
      f ∈ st.storage.started_jobs →
      env.restore_file_load f = .terminal msg →
      ∃ jobs, retrieve_jobs env st
          = ({ st with
                trace := st.trace ++ [Event.retrieve],
                metrics :=
                  { st.metrics with
                    gauge_retrieved := st.metrics.gauge_retrieved + 1,
                    cnt_retrieved := st.metrics.cnt_retrieved + 1 } },
              .ok (jobs.length, jobs))
        ∧ EmptyLoadJob_from_file_path f .failed msg ∈ jobs
        ∧ jobs.length = st.storage.started_jobs.length)
    ∧ (∀ (cfg : LoaderConfiguration) (env : Env) (fuel : Nat) (lid : String)
        (st st1 : LState) (pre post : List ParsedLoadJobFileName)
        (f : ParsedLoadJobFileName) (msg : String),
      schema_sync st = (st1, .ok ()) →
      st1.storage.started_jobs = pre ++ f :: post →
      (∀ g ∈ pre, (env.restore_file_load g).proceeds = true) →
      (env.restore_file_load f = .transient msg ∨
        env.restore_file_load f = .unexpected msg) →
      load_single_package cfg env fuel lid st
        = ({ st1 with trace := st1.trace ++ [Event.retrieve] },
            .error (.destinationError msg)))
    ∧ (∀ (cfg : LoaderConfiguration) (env : Env) (fuel : Nat) (lid : String)
        (st st1 st2 : LState) (r : Except LoadError Unit),
      schema_sync st = (st1, .ok ()) →
      load_single_package cfg env fuel lid st = (st2, r) →
      ∃ tl, st2.trace = st.trace ++ Event.retrieve :: tl
        ∧ (st1.storage.started_jobs ≠ [] → Event.spool ∉ tl)) := by
  refine ⟨?_, ?_, ?_⟩
  · intro env st f msg hall hf hterm
    have hne : st.storage.started_jobs ≠ [] := by
      intro hnil
      rw [hnil] at hf
      cases hf
    cases he : st.storage.started_jobs.isEmpty with
    | true => exact absurd (List.isEmpty_iff.mp he) hne
    | false =>
      obtain ⟨jobs, hgo, hmem, hsub⟩ := retrieve_go_ok env st.storage.started_jobs [] hall
      refine ⟨jobs, ?_, hmem f msg hf hterm, ?_⟩
      · simp [retrieve_jobs, he, hgo]
      · have hlen := retrieve_go_length env st.storage.started_jobs [] jobs hgo
        simpa using hlen
  · intro cfg env fuel lid st st1 pre post f msg hsync hsplit hpre hf
    have hgoerr : retrieve_jobs_go env st1.storage.started_jobs []
        = .error (.destinationError msg) := by
      rw [hsplit]
      exact retrieve_go_err env pre post f msg [] hpre hf
    have hne : st1.storage.started_jobs.isEmpty = false := by
      rw [hsplit]
      cases pre <;> rfl
    have hret : retrieve_jobs env st1
        = ({ st1 with trace := st1.trace ++ [Event.retrieve] },
            .error (.destinationError msg)) := by
      simp [retrieve_jobs, hne, hgoerr]
    simp [load_single_package, hsync, hret]
  · intro cfg env fuel lid st st1 st2 r hsync hload
    obtain ⟨hsn, hss, hsa, hst⟩ := schema_sync_frame st
    rw [hsync] at hsn hss hsa hst
    cases hretc : retrieve_jobs env st1 with
    | mk st2r r2 =>
      have htr : st2r.trace = st1.trace ++ [Event.retrieve] := by
        have h0 := retrieve_jobs_trace env st1
        rw [hretc] at h0
        exact h0
      cases r2 with
      | error e =>
        simp only [load_single_package, hsync, hretc] at hload
        obtain ⟨h1, h2⟩ := Prod.mk.injEq .. ▸ hload
        refine ⟨[], ?_, fun _ => by simp⟩
        rw [← h1, htr, hst]
      | ok pr =>
        cases pr with
        | mk rc rjobs =>
          cases hje : rjobs.isEmpty with
          | false =>
            cases hrc : rc == 0 with
            | true =>
              simp only [load_single_package, hsync, hretc, hje, Bool.false_eq_true,
                if_false, hrc, eq_self_iff_true, if_true] at hload
              have hcpt := complete_package_false_trace lid st2r
              rw [hload] at hcpt
              refine ⟨[Event.complete_load lid], ?_, fun _ => by simp⟩
              rw [hcpt, htr, hst]
              simp
            | false =>
              simp only [load_single_package, hsync, hretc, hje, Bool.false_eq_true,
                if_false, hrc] at hload
              have hpt := poll_loop_trace_any cfg env lid fuel rjobs st2r
              rw [hload] at hpt
              refine ⟨[], ?_, fun _ => by simp⟩
              rw [hpt, htr, hst]
          | true =>
            have hstarted_emp : ¬st1.storage.started_jobs ≠ [] := by
              intro hne
              obtain ⟨hjne, _, _, _⟩ := retrieve_jobs_ok_shape env st1 hretc hne
              exact hjne (List.isEmpty_iff.mp hje)
            cases hspc : spool_new_jobs cfg env st2r with
            | mk st3 r3 =>
              have htr3 : st3.trace = st2r.trace ++ [Event.spool] := by
                have h0 := spool_new_jobs_trace cfg env st2r
                rw [hspc] at h0
                exact h0
              cases r3 with
              | error e =>
                simp only [load_single_package, hsync, hretc, hje, eq_self_iff_true,
                  if_true, hspc] at hload
                obtain ⟨h1, h2⟩ := Prod.mk.injEq .. ▸ hload
                refine ⟨[Event.spool], ?_, fun hne => absurd hne hstarted_emp⟩
                rw [← h1, htr3, htr, hst]
                simp
              | ok pr3 =>
                cases pr3 with
                | mk fc sjobs =>
                  have hst4 : ∀ stz : LState,
                      (if 0 < fc then { stz with metrics := bump_running (zero_gauges stz.metrics) sjobs.length } else stz).trace = stz.trace := by
                    intro stz
                    by_cases h04 : 0 < fc
                    · simp [h04]
                    · simp [h04]
                  cases hfc : fc == 0 with
                  | true =>
                    simp only [load_single_package, hsync, hretc, hje, eq_self_iff_true,
                      if_true, hspc, hfc] at hload
                    have hcpt := complete_package_false_trace lid
                      (if 0 < fc then { st3 with metrics := bump_running (zero_gauges st3.metrics) sjobs.length } else st3)
                    rw [hload] at hcpt
                    rw [hst4 st3] at hcpt
                    refine ⟨[Event.spool, Event.complete_load lid], ?_,
                      fun hne => absurd hne hstarted_emp⟩
                    rw [hcpt, htr3, htr, hst]
                    simp
                  | false =>
                    simp only [load_single_package, hsync, hretc, hje, eq_self_iff_true,
                      if_true, hspc, hfc, Bool.false_eq_true, if_false] at hload
                    have hpt := poll_loop_trace_any cfg env lid fuel sjobs
                      (if 0 < fc then { st3 with metrics := bump_running (zero_gauges st3.metrics) sjobs.length } else st3)
                    rw [hload] at hpt
                    rw [hst4 st3] at hpt
                    refine ⟨[Event.spool], ?_, fun hne => absurd hne hstarted_emp⟩
                    rw [hpt, htr3, htr, hst]
                    simp

/-- C6: witness — the three parts instantiated on concrete runs: a
terminal restore that still yields all jobs, a transient restore that
aborts the run, and the trace ordering of the happy-path run. -/
theorem C6_witness :
    (∃ jobs, retrieve_jobs exEnvTerm exSt
        = ({ exSt with
              trace := exSt.trace ++ [Event.retrieve],
              metrics :=
                { exSt.metrics with
                  gauge_retrieved := exSt.metrics.gauge_retrieved + 1,
                  cnt_retrieved := exSt.metrics.cnt_retrieved + 1 } },
            .ok (jobs.length, jobs))
      ∧ EmptyLoadJob_from_file_path fOrders .failed "restore boom" ∈ jobs
      ∧ jobs.length = exSt.storage.started_jobs.length)
    ∧ load_single_package exCfg exEnvTrans 5 "L1" exSt
        = ({ exSt with trace := exSt.trace ++ [Event.retrieve] },
            .error (.destinationError "network blip"))
    ∧ load_single_package exCfg exEnvUnexp 5 "L1" exSt
        = ({ exSt with trace := exSt.trace ++ [Event.retrieve] },
            .error (.destinationError "attribute error"))
    ∧ ∃ tl, (load_single_package exCfg exEnv 5 "L1" exSt).1.trace
          = exSt.trace ++ Event.retrieve :: tl
        ∧ (exSt.storage.started_jobs ≠ [] → Event.spool ∉ tl) := by
  refine ⟨?_, ?_, ?_, ?_⟩
  · exact C6_retrieve_then_spool.1 exEnvTerm exSt fOrders "restore boom"
      (by decide) (by decide) (by decide)
  · exact C6_retrieve_then_spool.2.1 exCfg exEnvTrans 5 "L1" exSt exSt [] []
      fOrders "network blip" (by decide) (by decide) (by decide)
      (Or.inl (by decide))
  · exact C6_retrieve_then_spool.2.1 exCfg exEnvUnexp 5 "L1" exSt exSt [] []
      fOrders "attribute error" (by decide) (by decide) (by decide)
      (Or.inr (by decide))
  · exact C6_retrieve_then_spool.2.2 exCfg exEnv 5 "L1" exSt exSt
      (load_single_package exCfg exEnv 5 "L1" exSt).1 (.ok ())
      (by decide) (by decide)

end DltLoad
